import Mathlib

/-!
# Ground control point sampling (`satdump::gcp_compute::compute_gcps`)

A shallow embedding of `src-core/common/projection/gcp_compute/gcp_compute.cpp`
and a verification of the sampling properties stated for it.

Conventions of the embedding.

* C++ `int` is the 32-bit signed integer; its values are Lean `Int`s between
  `int_min` and `int_max`.  The arithmetic of the function is
  `x += gcp_spacing_x`, `img_size_x - 1`, `y++`, `y + 1`, `y % gcp_spacing_y`
  and the narrowing `(int)timestamps.size()`.  Signed overflow has no defined
  behaviour in C++: where `x += gcp_spacing_x` or `img_size_x - 1` leaves the
  range of `int` the embedding delivers no column list, so the call has no
  result.  `y++` and `y + 1` cannot overflow, because `y < img_size_y` and
  `img_size_y` is an `int`; `y + 1` is evaluated in 32 bits.  The narrowing
  conversion reduces modulo `2^32` (`int_cast`).
* `timestamps` is only read through `(int)timestamps.size()`; it is represented
  by its number of entries.
* `get_position(x, y, position)` returns `true` when the pixel cannot be
  located and otherwise writes `position`; it is represented by a function to
  `Option`, `none` standing for the return value `true`.
* The `double` fields of a GCP are copies: `(double)x` and `(double)y` are exact
  for every `int`, and longitude and latitude are passed through unchanged, so
  the embedding keeps the pixel coordinates as integers and is generic in the
  type `R` of geographic coordinate values.
* The scan state carries a ghost trace `queried` of the calls made to
  `get_position`, so that statements about which pixels are attempted can be
  expressed.
-/

namespace satdump
namespace gcp_compute

/-! ## Data model -/

/-- Modelled from the spec: the geodetic position record written by
`get_position` (declared in a header outside the translated source); only the
two fields read by `compute_gcps` are kept. -/
structure geodetic_coords_t (R : Type) where
  lon : R
  lat : R
deriving DecidableEq

/-- Modelled from the spec: the ground control point record
`satdump::projection::GCP` (declared in a header outside the translated
source), with the field order of the aggregate initialiser on line 35. -/
structure GCP (R : Type) where
  x : Int
  y : Int
  lon : R
  lat : R
deriving DecidableEq

/-- Modelled from the spec: the members of `SatelliteProjection` that
`compute_gcps` reads (the class is declared in a header outside the translated
source).  `get_position x y = none` stands for `get_position` returning `true`
(pixel not locatable). -/
structure SatelliteProjection (R : Type) where
  img_size_x : Int
  img_size_y : Int
  gcp_spacing_x : Int
  gcp_spacing_y : Int
  get_position : Int → Int → Option (geodetic_coords_t R)

/-- Ways in which the C++ function can fail to return: `y % 0` on line 27,
and a stride loop (lines 15-18) that delivers no column list because it never
exits or overflows `int`. -/
inductive Fault where
  | division_by_zero
  | column_loop_diverges
deriving DecidableEq

/-- The mutable state of the two nested loops (lines 11 and 22), extended with
the ghost trace of `get_position` calls. -/
structure ScanState (R : Type) where
  last_was_invalid : Bool
  gcps : List (GCP R)
  queried : List (Int × Int)

/-- State on entry to the row loop: `gcps` empty, `last_was_invalid = false`. -/
def ScanState.init (R : Type) : ScanState R :=
  { last_was_invalid := false, gcps := [], queried := [] }

variable {R : Type}

/-! ## Machine integers -/

/-- The least value of the 32-bit `int`, `INT_MIN`. -/
def int_min : Int := -2147483648

/-- The greatest value of the 32-bit `int`, `INT_MAX`. -/
def int_max : Int := 2147483647

/-- The value `n` is representable as an `int`. -/
def in_int_range (n : Int) : Bool :=
  decide (int_min ≤ n) && decide (n ≤ int_max)

/-- The `int` with the bit pattern of `n`: the result of the narrowing
conversion `(int)n`, which reduces modulo `2^32`. -/
def int_cast (n : Int) : Int :=
  (n + 2147483648) % 4294967296 - 2147483648

/-! ## The column sample positions (lines 15-18) -/

/-- The loop `for (int x = 0; x < img_size_x; x += gcp_spacing_x) values.push_back(x)`
started at `x` with `values` already collected.  Each unit of fuel pays for one
evaluation of the loop condition.  `none` means that the loop delivers no list:
the fuel ran out, or `x += gcp_spacing_x` left the range of `int`. -/
def column_loop : Nat → Int → Int → Int → List Int → Option (List Int)
  | 0, _, _, _, _ => none
  | fuel + 1, w, s, x, values =>
      if x < w then
        if in_int_range (x + s) then column_loop fuel w s (x + s) (values ++ [x])
        else none
      else some values

/-- Lines 15-18: the stride loop followed by `values.push_back(img_size_x - 1)`,
which has no value when `img_size_x - 1` is below `INT_MIN`.  The fuel
`img_size_x + 1` never runs out on a loop that exits: for a positive spacing
`none` is returned exactly when an addition overflows
(`column_values_isSome_iff`), and for a non-positive spacing and a positive
width the C++ loop cannot leave its condition without overflowing
(`column_loop_stuck`). -/
def column_values (P : SatelliteProjection R) : Option (List Int) :=
  (column_loop (P.img_size_x.toNat + 1) P.img_size_x P.gcp_spacing_x 0 []).bind
    (fun values =>
      if in_int_range (P.img_size_x - 1) then some (values ++ [P.img_size_x - 1])
      else none)

/-! ## The sampling loops (lines 22-40) -/

/-- The first two disjuncts of the condition on line 27:
`y % gcp_spacing_y == 0 || y + 1 == (int)timestamps.size()`.
`Int.tmod` is the truncating remainder of C++; both sides of the second
comparison are 32-bit values, the right one narrowed from the `size_t` length. -/
def row_selected (P : SatelliteProjection R) (timestamps_size : Nat) (y : Int) : Bool :=
  y.tmod P.gcp_spacing_y == 0 || int_cast (y + 1) == int_cast (timestamps_size : Int)

/-- The body of the inner loop (lines 27-38) for the pixel `(x, y)`.
Evaluating `y % gcp_spacing_y` with a zero spacing is a fault. -/
def loop_body (P : SatelliteProjection R) (timestamps_size : Nat) (y x : Int)
    (st : ScanState R) : Except Fault (ScanState R) :=
  if P.gcp_spacing_y = 0 then .error Fault.division_by_zero
  else if row_selected P timestamps_size y || st.last_was_invalid then
    match P.get_position x y with
    | none =>
        .ok { last_was_invalid := true, gcps := st.gcps,
              queried := st.queried ++ [(x, y)] }
    | some position =>
        .ok { last_was_invalid := false,
              gcps := st.gcps ++ [⟨x, y, position.lon, position.lat⟩],
              queried := st.queried ++ [(x, y)] }
  else .ok { last_was_invalid := false, gcps := st.gcps, queried := st.queried }

/-- The inner loop `for (int x : values)` (lines 25-39) on row `y`. -/
def column_pass (P : SatelliteProjection R) (timestamps_size : Nat) (y : Int) :
    List Int → ScanState R → Except Fault (ScanState R)
  | [], st => .ok st
  | x :: xs, st =>
      match loop_body P timestamps_size y x st with
      | .error e => .error e
      | .ok st' => column_pass P timestamps_size y xs st'

/-- The outer loop `for (int y = ...; y < img_size_y; y++)` (lines 23-40) with
`n` rows still to visit, the next one being `y`. -/
def row_loop (P : SatelliteProjection R) (timestamps_size : Nat) (values : List Int) :
    Nat → Int → ScanState R → Except Fault (ScanState R)
  | 0, _, st => .ok st
  | n + 1, y, st =>
      match column_pass P timestamps_size y values st with
      | .error e => .error e
      | .ok st' => row_loop P timestamps_size values n (y + 1) st'

/-- Lines 15-40: the final scan state of `compute_gcps`. -/
def scan (P : SatelliteProjection R) (timestamps_size : Nat) :
    Except Fault (ScanState R) :=
  match column_values P with
  | none => .error Fault.column_loop_diverges
  | some values =>
      row_loop P timestamps_size values P.img_size_y.toNat 0 (ScanState.init R)

/-- The function `compute_gcps`: the vector `gcps` returned on line 42. -/
def compute_gcps (P : SatelliteProjection R) (timestamps_size : Nat) :
    Except Fault (List (GCP R)) :=
  (scan P timestamps_size).map (fun st => st.gcps)

/-- The pixels `(x, y)` at which `compute_gcps` calls `get_position`, in call
order. -/
def locate_queries (P : SatelliteProjection R) (timestamps_size : Nat) :
    Except Fault (List (Int × Int)) :=
  (scan P timestamps_size).map (fun st => st.queried)

/-! ## Vocabulary of the specification -/

/-- Rounded-up quotient `ceil(a / b)` for a positive divisor `b`
(see `ceil_div_eq_ceil`). -/
def ceil_div (a b : Int) : Int := (a + b - 1) / b

/-- Scan order on ground control points: earlier row, or the same row and a
column that is not to the right. -/
def scan_le (g₁ g₂ : GCP R) : Prop :=
  g₁.y < g₂.y ∨ (g₁.y = g₂.y ∧ g₁.x ≤ g₂.x)

/-- The ground control point emitted on line 35 for pixel `(x, y)`, if any. -/
def gcp_at (P : SatelliteProjection R) (y x : Int) : Option (GCP R) :=
  (P.get_position x y).map (fun position => ⟨x, y, position.lon, position.lat⟩)

/-- The call returns and `get_position` was queried at pixel `(x, y)`. -/
def queried (P : SatelliteProjection R) (timestamps_size : Nat) (x y : Int) : Prop :=
  ∃ queries, locate_queries P timestamps_size = .ok queries ∧ (x, y) ∈ queries

/-- The call returns and the ground control point `g` is in its result. -/
def emitted (P : SatelliteProjection R) (timestamps_size : Nat) (g : GCP R) : Prop :=
  ∃ gcps, compute_gcps P timestamps_size = .ok gcps ∧ g ∈ gcps

/-- The stride arithmetic of lines 15-18 stays within `int`: `img_size_x - 1`
is representable, and so is the first multiple of the column spacing at or
above the image width, the last value the loop counter takes. -/
def strides_in_int_range (P : SatelliteProjection R) : Prop :=
  int_min < P.img_size_x ∧
    ceil_div P.img_size_x P.gcp_spacing_x * P.gcp_spacing_x ≤ int_max

instance (P : SatelliteProjection R) : Decidable (strides_in_int_range P) := by
  unfold strides_in_int_range
  infer_instance

/-- The rows `0 ≤ y < img_size_y` selected by the row conditions. -/
def selected_rows (P : SatelliteProjection R) (timestamps_size : Nat) : List Int :=
  ((List.range P.img_size_y.toNat).map (fun n : Nat => (n : Int))).filter
    (row_selected P timestamps_size)

/-! ## The scan as a sequence of steps -/

/-- The scan positions of the first `n` rows in the order in which the nested
loops of lines 23-25 visit them: rows in increasing order and, within a row,
the column sample positions in list order. -/
def scan_positions (values : List Int) : Nat → List (Int × Int)
  | 0 => []
  | n + 1 => scan_positions values n ++ values.map (fun x => (x, (n : Int)))

/-- The loop body of lines 27-38 run at each of a list of scan positions in
turn. -/
def run_steps (P : SatelliteProjection R) (timestamps_size : Nat) :
    List (Int × Int) → ScanState R → Except Fault (ScanState R)
  | [], st => .ok st
  | p :: ps, st =>
      match loop_body P timestamps_size p.2 p.1 st with
      | .error e => .error e
      | .ok st' => run_steps P timestamps_size ps st'

/-- The scan state reached just before the scan position of index `k`. -/
def state_at (P : SatelliteProjection R) (timestamps_size : Nat)
    (ps : List (Int × Int)) (k : Nat) : Except Fault (ScanState R) :=
  run_steps P timestamps_size (ps.take k) (ScanState.init R)

/-- The scan position of index `k` is attempted: the step taken there adds
its pixel to the trace of `get_position` queries. -/
def attempted_at (P : SatelliteProjection R) (timestamps_size : Nat)
    (ps : List (Int × Int)) (k : Nat) : Prop :=
  ∃ st st' p, ps[k]? = some p ∧ state_at P timestamps_size ps k = .ok st ∧
    state_at P timestamps_size ps (k + 1) = .ok st' ∧ st'.queried = st.queried ++ [p]

/-- The flag `last_was_invalid` is set just before the scan position of index
`k`. -/
def flag_at (P : SatelliteProjection R) (timestamps_size : Nat)
    (ps : List (Int × Int)) (k : Nat) : Prop :=
  ∃ st, state_at P timestamps_size ps k = .ok st ∧ st.last_was_invalid = true

/-! ## Closed forms used in the proofs -/

/-- Queries made on row `y` when the row is entered with flag `f`. -/
def row_queries (P : SatelliteProjection R) (ts : Nat) (y : Int) :
    List Int → Bool → List (Int × Int)
  | [], _ => []
  | x :: xs, f =>
      if row_selected P ts y || f then
        (x, y) :: row_queries P ts y xs (P.get_position x y).isNone
      else row_queries P ts y xs false

/-- Ground control points emitted on row `y` when entered with flag `f`. -/
def row_gcps (P : SatelliteProjection R) (ts : Nat) (y : Int) :
    List Int → Bool → List (GCP R)
  | [], _ => []
  | x :: xs, f =>
      if row_selected P ts y || f then
        match P.get_position x y with
        | none => row_gcps P ts y xs true
        | some position =>
            ⟨x, y, position.lon, position.lat⟩ :: row_gcps P ts y xs false
      else row_gcps P ts y xs false

/-- Value of the flag after row `y` when entered with flag `f`. -/
def row_flag (P : SatelliteProjection R) (ts : Nat) (y : Int) :
    List Int → Bool → Bool
  | [], f => f
  | x :: xs, f =>
      if row_selected P ts y || f then
        row_flag P ts y xs (P.get_position x y).isNone
      else row_flag P ts y xs false

/-- Value of the flag after the first `n` rows. -/
def flag_after (P : SatelliteProjection R) (ts : Nat) (values : List Int) : Nat → Bool
  | 0 => false
  | n + 1 => row_flag P ts (n : Int) values (flag_after P ts values n)

/-- Ground control points emitted by the first `n` rows. -/
def gcps_after (P : SatelliteProjection R) (ts : Nat) (values : List Int) :
    Nat → List (GCP R)
  | 0 => []
  | n + 1 => gcps_after P ts values n
      ++ row_gcps P ts (n : Int) values (flag_after P ts values n)

/-- Queries made by the first `n` rows. -/
def queries_after (P : SatelliteProjection R) (ts : Nat) (values : List Int) :
    Nat → List (Int × Int)
  | 0 => []
  | n + 1 => queries_after P ts values n
      ++ row_queries P ts (n : Int) values (flag_after P ts values n)

/-- The scan state after the first `n` rows. -/
def state_after (P : SatelliteProjection R) (ts : Nat) (values : List Int) (n : Nat) :
    ScanState R :=
  { last_was_invalid := flag_after P ts values n,
    gcps := gcps_after P ts values n,
    queried := queries_after P ts values n }

/-- The regular strides `0, s, 2 s, …` below `w`, followed by `w - 1`. -/
def stride_values (w s : Int) : List Int :=
  (List.range (ceil_div w s).toNat).map (fun k : Nat => (k : Int) * s) ++ [w - 1]

/-! ## Concrete projections used in examples -/

/-- A projection on which every pixel is mappable, to `(c x, c y)`, where `c`
converts a pixel index to a coordinate value. -/
def all_mappable (c : Int → R) (w h sx sy : Int) : SatelliteProjection R :=
  ⟨w, h, sx, sy, fun x y => some ⟨c x, c y⟩⟩

/-- A projection on which no pixel is mappable. -/
def none_mappable (w h sx sy : Int) : SatelliteProjection Int :=
  ⟨w, h, sx, sy, fun _ _ => none⟩

/-- A 2 x 3 image sampled at every column and every third row, on which only
the pixel `(1, 0)`, the right end of the first row, is unmappable. -/
def carry_example : SatelliteProjection Int :=
  ⟨2, 3, 1, 3, fun x y => if x = 1 ∧ y = 0 then none else some ⟨x, y⟩⟩

/-- The image of `carry_example` on which the pixel `(0, 1)` is unmappable as
well. -/
def carry_through : SatelliteProjection Int :=
  ⟨2, 3, 1, 3, fun x y => if (x = 1 ∧ y = 0) ∨ (x = 0 ∧ y = 1) then none else some ⟨x, y⟩⟩

/-- The image of `carry_example` with a projection that also fails in column 7,
which lies outside the image. -/
def carry_example_off_grid : SatelliteProjection Int :=
  ⟨2, 3, 1, 3, fun x y => if (x = 1 ∧ y = 0) ∨ x = 7 then none else some ⟨x, y⟩⟩

/-- A 3 x 10 image with column spacing 2 and row spacing 4 on which the
rightmost column is unmappable. -/
def ten_rows : SatelliteProjection Int :=
  ⟨3, 10, 2, 4, fun x y => if x = 2 then none else some ⟨x, y⟩⟩

/-! ## The column positions in closed form -/

theorem in_int_range_iff (n : Int) :
    in_int_range n = true ↔ int_min ≤ n ∧ n ≤ int_max := by
  simp [in_int_range]

theorem int_cast_of_in_range (n : Int) (h0 : int_min ≤ n) (h1 : n ≤ int_max) :
    int_cast n = n := by
  unfold int_cast
  unfold int_min at h0
  unfold int_max at h1
  omega

theorem ceil_div_succ (a s : Int) (hs : 0 < s) :
    ceil_div a s = ceil_div (a - s) s + 1 := by
  unfold ceil_div
  have h1 : a + s - 1 = (a - s + s - 1) + 1 * s := by ring
  rw [h1, Int.add_mul_ediv_right _ _ (by omega)]

theorem ceil_div_le_zero (a s : Int) (hs : 0 < s) (ha : a ≤ 0) : ceil_div a s ≤ 0 := by
  unfold ceil_div
  have h : (a + s - 1) / s < 1 := Int.ediv_lt_of_lt_mul hs (by omega)
  omega

theorem ceil_div_nonneg (a s : Int) (hs : 0 < s) (ha : 0 ≤ a) : 0 ≤ ceil_div a s :=
  Int.ediv_nonneg (by omega) (by omega)

theorem ceil_div_pos (a s : Int) (hs : 0 < s) (ha : 0 < a) : 1 ≤ ceil_div a s := by
  unfold ceil_div
  exact (Int.le_ediv_iff_mul_le hs).mpr (by omega)

theorem le_ceil_div_mul (a s : Int) (hs : 0 < s) : a ≤ ceil_div a s * s := by
  unfold ceil_div
  have := Int.lt_ediv_add_one_mul_self (a + s - 1) hs
  nlinarith

theorem ceil_div_mul_le (a s : Int) (hs : 0 < s) : ceil_div a s * s ≤ a + s - 1 := by
  unfold ceil_div
  exact Int.ediv_mul_le _ (by omega)

theorem ceil_div_step (a s : Int) (hs : 0 < s) (ha : 0 < a) :
    (ceil_div a s).toNat = (ceil_div (a - s) s).toNat + 1 := by
  have h1 := ceil_div_succ a s hs
  have h2 := ceil_div_pos a s hs ha
  omega

theorem ceil_div_nonpos (a s : Int) (hs : 0 < s) (ha : a ≤ 0) :
    (ceil_div a s).toNat = 0 := by
  have := ceil_div_le_zero a s hs ha
  omega

/-- The list a stride loop delivers, whenever it delivers one. -/
theorem column_loop_some (w s : Int) (hs : 0 < s) :
    ∀ (fuel : Nat) (x : Int) (acc l : List Int),
      column_loop fuel w s x acc = some l →
      l = acc ++ (List.range (ceil_div (w - x) s).toNat).map
            (fun k : Nat => x + (k : Int) * s) := by
  intro fuel
  induction fuel with
  | zero => intro x acc l h; cases h
  | succ fuel ih =>
    intro x acc l h
    unfold column_loop at h
    by_cases hx : x < w
    · rw [if_pos hx] at h
      by_cases hr : in_int_range (x + s) = true
      · rw [if_pos hr] at h
        rw [ih (x + s) (acc ++ [x]) l h]
        have e : w - (x + s) = (w - x) - s := by ring
        rw [ceil_div_step (w - x) s hs (by omega), e, List.range_succ_eq_map]
        simp only [List.map_cons, List.map_map, List.append_assoc, List.singleton_append,
          Nat.cast_zero, zero_mul, add_zero]
        congr 2
        apply List.map_congr_left
        intro k _
        simp only [Function.comp, Nat.succ_eq_add_one, Nat.cast_add, Nat.cast_one]
        ring
      · rw [if_neg hr] at h
        cases h
    · rw [if_neg hx] at h
      cases h
      rw [ceil_div_nonpos (w - x) s hs (by omega)]
      simp

/-- A stride loop that delivers a list never stepped beyond `INT_MAX`. -/
theorem column_loop_range (w s : Int) (hs : 0 < s) :
    ∀ (fuel : Nat) (x : Int) (acc l : List Int),
      column_loop fuel w s x acc = some l → x < w →
      x + ceil_div (w - x) s * s ≤ int_max := by
  intro fuel
  induction fuel with
  | zero => intro x acc l h; cases h
  | succ fuel ih =>
    intro x acc l h hx
    unfold column_loop at h
    rw [if_pos hx] at h
    by_cases hr : in_int_range (x + s) = true
    · rw [if_pos hr] at h
      have hr' := (in_int_range_iff _).mp hr
      have e : w - (x + s) = (w - x) - s := by ring
      rw [ceil_div_succ (w - x) s hs]
      by_cases hx' : x + s < w
      · have := ih (x + s) _ l h hx'
        rw [e] at this
        nlinarith
      · have hc := ceil_div_le_zero (w - x - s) s hs (by omega)
        nlinarith [hr'.2]
    · rw [if_neg hr] at h
      cases h

/-- A stride loop whose counter stays within `int` delivers its list. -/
theorem column_loop_eq (w s : Int) (hs : 0 < s) :
    ∀ (fuel : Nat) (x : Int) (acc : List Int), (w - x).toNat < fuel → 0 ≤ x →
      (x < w → x + ceil_div (w - x) s * s ≤ int_max) →
      column_loop fuel w s x acc
        = some (acc ++ (List.range (ceil_div (w - x) s).toNat).map
            (fun k : Nat => x + (k : Int) * s)) := by
  intro fuel
  induction fuel with
  | zero => intro x acc h; omega
  | succ fuel ih =>
    intro x acc h h0 hb
    have hsome : ∃ l, column_loop (fuel + 1) w s x acc = some l := by
      unfold column_loop
      by_cases hx : x < w
      · have hb' := hb hx
        have hc := ceil_div_pos (w - x) s hs (by omega)
        have hr : in_int_range (x + s) = true := by
          rw [in_int_range_iff]
          unfold int_min
          constructor
          · omega
          · nlinarith
        rw [if_pos hx, if_pos hr]
        have e : w - (x + s) = (w - x) - s := by ring
        refine ⟨_, ih (x + s) (acc ++ [x]) (by omega) (by omega) ?_⟩
        intro _
        rw [e]
        have := ceil_div_succ (w - x) s hs
        nlinarith
      · rw [if_neg hx]
        exact ⟨acc, rfl⟩
    obtain ⟨l, hl⟩ := hsome
    rw [hl, column_loop_some w s hs _ _ _ _ hl]

/-- With a non-positive spacing and a positive width the stride loop cannot
leave its condition: it delivers no list. -/
theorem column_loop_stuck (w s : Int) (hw : 0 < w) (hs : s ≤ 0) :
    ∀ (fuel : Nat) (x : Int) (acc : List Int), x ≤ 0 →
      column_loop fuel w s x acc = none := by
  intro fuel
  induction fuel with
  | zero => intro x acc _; rfl
  | succ fuel ih =>
    intro x acc hx
    unfold column_loop
    rw [if_pos (by omega)]
    split
    · exact ih _ _ (by omega)
    · rfl

theorem column_values_eq (P : SatelliteProjection R) (hx : 0 < P.gcp_spacing_x)
    (hr : strides_in_int_range P) :
    column_values P = some (stride_values P.img_size_x P.gcp_spacing_x) := by
  obtain ⟨h1, h2⟩ := hr
  have hle := le_ceil_div_mul P.img_size_x P.gcp_spacing_x hx
  have hin : in_int_range (P.img_size_x - 1) = true := by
    rw [in_int_range_iff]
    constructor <;> omega
  unfold column_values stride_values
  rw [column_loop_eq _ _ hx _ _ _ (by omega) (le_refl 0) (by intro _; simpa using h2)]
  simp [hin]

/-- The column list, whenever lines 15-18 deliver one. -/
theorem column_values_inj (P : SatelliteProjection R) (hx : 0 < P.gcp_spacing_x)
    (values : List Int) (hv : column_values P = some values) :
    values = stride_values P.img_size_x P.gcp_spacing_x := by
  unfold column_values at hv
  cases hl : column_loop (P.img_size_x.toNat + 1) P.img_size_x P.gcp_spacing_x 0 [] with
  | none => rw [hl] at hv; cases hv
  | some l =>
    rw [hl] at hv
    simp only [Option.bind] at hv
    split at hv
    · cases hv
      rw [column_loop_some _ _ hx _ _ _ _ hl]
      simp [stride_values]
    · cases hv

/-- For a positive spacing, lines 15-18 deliver the column list exactly when
their arithmetic stays within `int`. -/
theorem column_values_isSome_iff (P : SatelliteProjection R) (hx : 0 < P.gcp_spacing_x) :
    (∃ values, column_values P = some values) ↔ strides_in_int_range P := by
  constructor
  · rintro ⟨values, hv⟩
    unfold column_values at hv
    cases hl : column_loop (P.img_size_x.toNat + 1) P.img_size_x P.gcp_spacing_x 0 [] with
    | none => rw [hl] at hv; cases hv
    | some l =>
      rw [hl] at hv
      simp only [Option.bind] at hv
      split at hv
      · rename_i hin
        have hin' := (in_int_range_iff _).mp hin
        refine ⟨by omega, ?_⟩
        by_cases hw : 0 < P.img_size_x
        · have := column_loop_range _ _ hx _ _ _ _ hl hw
          simpa using this
        · have := ceil_div_le_zero P.img_size_x P.gcp_spacing_x hx (by omega)
          unfold int_max
          nlinarith
      · cases hv
  · intro hr
    exact ⟨_, column_values_eq P hx hr⟩

/-- With a non-positive spacing and a positive width lines 15-18 deliver no
list. -/
theorem column_values_eq_none_of_nonpos (P : SatelliteProjection R)
    (hw : 0 < P.img_size_x) (hs : P.gcp_spacing_x ≤ 0) : column_values P = none := by
  unfold column_values
  rw [column_loop_stuck _ _ hw hs _ _ _ (le_refl 0)]
  rfl

/-- The stride arithmetic stays within `int` as soon as width plus spacing
does not exceed `2^31`. -/
theorem strides_in_int_range_of_sum (P : SatelliteProjection R)
    (hx : 0 < P.gcp_spacing_x) (hw : 0 ≤ P.img_size_x)
    (h : P.img_size_x + P.gcp_spacing_x ≤ 2147483648) : strides_in_int_range P := by
  have := ceil_div_mul_le P.img_size_x P.gcp_spacing_x hx
  unfold strides_in_int_range int_min int_max
  constructor <;> omega

/-- The stride loop of the 2147483647 pixels wide image with column spacing
1073741824 overflows at its third step and delivers no list. -/
theorem column_values_overflow :
    column_values (all_mappable (fun n : Int => n) 2147483647 1 1073741824 1) = none := by
  have h : ¬ strides_in_int_range
      (all_mappable (fun n : Int => n) 2147483647 1 1073741824 1) := by
    unfold strides_in_int_range
    decide
  cases hv : column_values (all_mappable (fun n : Int => n) 2147483647 1 1073741824 1) with
  | none => rfl
  | some values =>
    exact absurd ((column_values_isSome_iff _ (by decide)).mp ⟨values, hv⟩) h

/-! ## The loops in closed form -/

theorem column_pass_eq (P : SatelliteProjection R) (ts : Nat) (y : Int)
    (hy : P.gcp_spacing_y ≠ 0) :
    ∀ (xs : List Int) (st : ScanState R),
      column_pass P ts y xs st
        = .ok { last_was_invalid := row_flag P ts y xs st.last_was_invalid,
                gcps := st.gcps ++ row_gcps P ts y xs st.last_was_invalid,
                queried := st.queried ++ row_queries P ts y xs st.last_was_invalid } := by
  intro xs
  induction xs with
  | nil => intro st; simp [column_pass, row_flag, row_gcps, row_queries]
  | cons x xs ih =>
    intro st
    unfold column_pass loop_body
    rw [if_neg hy]
    by_cases hc : (row_selected P ts y || st.last_was_invalid) = true
    · rw [if_pos hc]
      cases hg : P.get_position x y with
      | none => simp [ih, row_flag, row_gcps, row_queries, hc, hg]
      | some position => simp [ih, row_flag, row_gcps, row_queries, hc, hg]
    · rw [if_neg hc]
      simp [ih, row_flag, row_gcps, row_queries, hc]

theorem row_loop_eq (P : SatelliteProjection R) (ts : Nat) (values : List Int)
    (hy : P.gcp_spacing_y ≠ 0) :
    ∀ (m k : Nat),
      row_loop P ts values m (k : Int) (state_after P ts values k)
        = .ok (state_after P ts values (k + m)) := by
  intro m
  induction m with
  | zero => intro k; rfl
  | succ m ih =>
    intro k
    unfold row_loop
    rw [column_pass_eq P ts _ hy]
    have e : ((k : Int) + 1) = ((k + 1 : Nat) : Int) := by push_cast; ring
    have h := ih (k + 1)
    rw [← e] at h
    have e2 : k + 1 + m = k + (m + 1) := by omega
    rw [e2] at h
    exact h

theorem scan_eq (P : SatelliteProjection R) (ts : Nat)
    (hv : column_values P = some (stride_values P.img_size_x P.gcp_spacing_x))
    (hy : 0 < P.gcp_spacing_y) :
    scan P ts = .ok (state_after P ts
      (stride_values P.img_size_x P.gcp_spacing_x) P.img_size_y.toNat) := by
  unfold scan
  rw [hv]
  have h := row_loop_eq P ts (stride_values P.img_size_x P.gcp_spacing_x)
    (by omega) P.img_size_y.toNat 0
  simpa [state_after, flag_after, gcps_after, queries_after, ScanState.init] using h

theorem compute_gcps_eq (P : SatelliteProjection R) (ts : Nat)
    (hv : column_values P = some (stride_values P.img_size_x P.gcp_spacing_x))
    (hy : 0 < P.gcp_spacing_y) :
    compute_gcps P ts = .ok (gcps_after P ts
      (stride_values P.img_size_x P.gcp_spacing_x) P.img_size_y.toNat) := by
  unfold compute_gcps
  rw [scan_eq P ts hv hy]
  rfl

theorem locate_queries_eq (P : SatelliteProjection R) (ts : Nat)
    (hv : column_values P = some (stride_values P.img_size_x P.gcp_spacing_x))
    (hy : 0 < P.gcp_spacing_y) :
    locate_queries P ts = .ok (queries_after P ts
      (stride_values P.img_size_x P.gcp_spacing_x) P.img_size_y.toNat) := by
  unfold locate_queries
  rw [scan_eq P ts hv hy]
  rfl

/-- A scan that ends in a state was given its column list by lines 15-18. -/
theorem column_values_of_scan (P : SatelliteProjection R) (ts : Nat)
    (hx : 0 < P.gcp_spacing_x) (st : ScanState R) (h : scan P ts = .ok st) :
    column_values P = some (stride_values P.img_size_x P.gcp_spacing_x) := by
  unfold scan at h
  cases hv : column_values P with
  | none => rw [hv] at h; cases h
  | some values => rw [column_values_inj P hx values hv]

theorem column_values_of_compute_gcps (P : SatelliteProjection R) (ts : Nat)
    (hx : 0 < P.gcp_spacing_x) (gcps : List (GCP R)) (h : compute_gcps P ts = .ok gcps) :
    column_values P = some (stride_values P.img_size_x P.gcp_spacing_x) := by
  unfold compute_gcps at h
  cases hs : scan P ts with
  | error e => rw [hs] at h; cases h
  | ok st => exact column_values_of_scan P ts hx st hs

theorem column_values_of_locate_queries (P : SatelliteProjection R) (ts : Nat)
    (hx : 0 < P.gcp_spacing_x) (qs : List (Int × Int)) (h : locate_queries P ts = .ok qs) :
    column_values P = some (stride_values P.img_size_x P.gcp_spacing_x) := by
  unfold locate_queries at h
  cases hs : scan P ts with
  | error e => rw [hs] at h; cases h
  | ok st => exact column_values_of_scan P ts hx st hs

/-! ## Facts about a single row -/

/-- A row that satisfies a row condition is selected. -/
theorem row_selected_of (P : SatelliteProjection R) (ts : Nat) (y : Int)
    (hy : 0 < P.gcp_spacing_y) (h0 : 0 ≤ y)
    (h : y % P.gcp_spacing_y = 0 ∨ y + 1 = (ts : Int)) :
    row_selected P ts y = true := by
  unfold row_selected
  rw [Int.tmod_eq_emod h0 (le_of_lt hy)]
  rcases h with h | h
  · simp [h]
  · simp [h]

/-- For a row number and a number of timestamps that are `int` values, the
selected rows are those that satisfy a row condition. -/
theorem row_selected_iff (P : SatelliteProjection R) (ts : Nat) (y : Int)
    (hy : 0 < P.gcp_spacing_y) (h0 : 0 ≤ y) (h1 : y + 1 ≤ int_max)
    (hts : (ts : Int) ≤ int_max) :
    row_selected P ts y = true ↔ (y % P.gcp_spacing_y = 0 ∨ y + 1 = (ts : Int)) := by
  unfold row_selected
  rw [Int.tmod_eq_emod h0 (le_of_lt hy),
    int_cast_of_in_range (y + 1) (by unfold int_min; omega) h1,
    int_cast_of_in_range (ts : Int) (by unfold int_min; omega) hts]
  simp only [Bool.or_eq_true, beq_iff_eq]

/-- The narrowing of `timestamps.size()` is visible beyond the range of `int`:
with `2^32 + 2` timestamps row 1 is selected, as `(int)(2^32 + 2) = 2`. -/
theorem row_selected_narrowing :
    row_selected (all_mappable (fun n : Int => n) 5 3 2 3) 4294967298 1 = true := by
  decide

theorem row_unselected (P : SatelliteProjection R) (ts : Nat) (y : Int)
    (hy : 0 < P.gcp_spacing_y) (h0 : 0 ≤ y) (h1 : y + 1 ≤ int_max)
    (hts : (ts : Int) ≤ int_max)
    (hns : ¬ (y % P.gcp_spacing_y = 0 ∨ y + 1 = (ts : Int))) :
    row_selected P ts y = false := by
  have := row_selected_iff P ts y hy h0 h1 hts
  simpa using fun h => hns (this.mp h)

theorem row_queries_mem (P : SatelliteProjection R) (ts : Nat) (y : Int) :
    ∀ (xs : List Int) (f : Bool) (q : Int × Int),
      q ∈ row_queries P ts y xs f → q.2 = y ∧ q.1 ∈ xs := by
  intro xs
  induction xs with
  | nil => intro f q h; simp [row_queries] at h
  | cons a xs ih =>
    intro f q h
    unfold row_queries at h
    split at h
    · rcases List.mem_cons.mp h with h | h
      · subst h; simp
      · have := ih _ _ h
        exact ⟨this.1, List.mem_cons_of_mem _ this.2⟩
    · have := ih _ _ h
      exact ⟨this.1, List.mem_cons_of_mem _ this.2⟩

theorem row_gcps_mem (P : SatelliteProjection R) (ts : Nat) (y : Int) :
    ∀ (xs : List Int) (f : Bool) (g : GCP R),
      g ∈ row_gcps P ts y xs f →
        g.y = y ∧ g.x ∈ xs ∧ P.get_position g.x y = some ⟨g.lon, g.lat⟩ := by
  intro xs
  induction xs with
  | nil => intro f g h; simp [row_gcps] at h
  | cons a xs ih =>
    intro f g h
    unfold row_gcps at h
    split at h
    · split at h
      · have := ih _ _ h
        exact ⟨this.1, List.mem_cons_of_mem _ this.2.1, this.2.2⟩
      · rename_i position hp
        rcases List.mem_cons.mp h with h | h
        · subst h
          exact ⟨rfl, List.mem_cons_self _ _, hp⟩
        · have := ih _ _ h
          exact ⟨this.1, List.mem_cons_of_mem _ this.2.1, this.2.2⟩
    · have := ih _ _ h
      exact ⟨this.1, List.mem_cons_of_mem _ this.2.1, this.2.2⟩

theorem row_gcps_pairwise (P : SatelliteProjection R) (ts : Nat) (y : Int) :
    ∀ (xs : List Int) (f : Bool), xs.Pairwise (· ≤ ·) →
      (row_gcps P ts y xs f).Pairwise scan_le := by
  intro xs
  induction xs with
  | nil => intro f _; simp [row_gcps]
  | cons a xs ih =>
    intro f h
    have hp := List.pairwise_cons.mp h
    unfold row_gcps
    split
    · split
      · exact ih _ hp.2
      · refine List.pairwise_cons.mpr ⟨?_, ih _ hp.2⟩
        intro g hg
        have hm := row_gcps_mem P ts y xs _ g hg
        exact Or.inr ⟨hm.1.symm, hp.1 _ hm.2.1⟩
    · exact ih _ hp.2

/-- On a row selected by the row conditions every column position is queried. -/
theorem row_queries_selected (P : SatelliteProjection R) (ts : Nat) (y : Int)
    (hsel : row_selected P ts y = true) :
    ∀ (xs : List Int) (f : Bool),
      row_queries P ts y xs f = xs.map (fun x => (x, y)) := by
  intro xs
  induction xs with
  | nil => intro f; rfl
  | cons a xs ih => intro f; simp [row_queries, hsel, ih]

/-- On a row selected by the row conditions every mappable column position
emits its ground control point. -/
theorem row_gcps_selected (P : SatelliteProjection R) (ts : Nat) (y : Int)
    (hsel : row_selected P ts y = true) :
    ∀ (xs : List Int) (f : Bool),
      row_gcps P ts y xs f = xs.filterMap (gcp_at P y) := by
  intro xs
  induction xs with
  | nil => intro f; rfl
  | cons a xs ih =>
    intro f
    unfold row_gcps
    cases hg : P.get_position a y with
    | none => simp [hsel, ih, gcp_at, hg, List.filterMap_cons]
    | some position => simp [hsel, ih, gcp_at, hg, List.filterMap_cons]

/-- A row that is neither selected nor entered with the flag set is skipped. -/
theorem row_skipped (P : SatelliteProjection R) (ts : Nat) (y : Int)
    (hsel : row_selected P ts y = false) :
    ∀ (xs : List Int),
      row_queries P ts y xs false = [] ∧ row_gcps P ts y xs false = []
        ∧ row_flag P ts y xs false = false := by
  intro xs
  induction xs with
  | nil => simp [row_queries, row_gcps, row_flag]
  | cons a xs ih => simp [row_queries, row_gcps, row_flag, hsel, ih]

/-- A position is queried, and emits when mappable, as soon as the row is
selected or entered with the flag set and every earlier position of the row is
unmappable. -/
theorem row_prefix_attempted (P : SatelliteProjection R) (ts : Nat) (y : Int) :
    ∀ (pre : List Int) (x : Int) (post : List Int) (f : Bool),
      (row_selected P ts y || f) = true →
      (∀ a ∈ pre, P.get_position a y = none) →
      (x, y) ∈ row_queries P ts y (pre ++ x :: post) f ∧
      ∀ position, P.get_position x y = some position →
        (⟨x, y, position.lon, position.lat⟩ : GCP R) ∈ row_gcps P ts y (pre ++ x :: post) f := by
  intro pre
  induction pre with
  | nil =>
    intro x post f hc _
    constructor
    · simp [row_queries, hc]
    · intro position hp
      simp [row_gcps, hc, hp]
  | cons a pre ih =>
    intro x post f hc hpre
    have ha : P.get_position a y = none := hpre a (List.mem_cons_self _ _)
    have h := ih x post true (by simp) (fun b hb => hpre b (List.mem_cons_of_mem _ hb))
    constructor
    · simp only [List.cons_append, row_queries, hc, if_true, ha, Option.isNone_none]
      exact List.mem_cons_of_mem _ h.1
    · intro position hp
      simp only [List.cons_append, row_gcps, hc, if_true, ha]
      exact h.2 position hp

/-- Once the flag is set it survives a run of unmappable positions. -/
theorem row_flag_all_unmappable (P : SatelliteProjection R) (ts : Nat) (y : Int) :
    ∀ (xs : List Int), (∀ a ∈ xs, P.get_position a y = none) →
      row_flag P ts y xs true = true := by
  intro xs
  induction xs with
  | nil => intro _; rfl
  | cons a xs ih =>
    intro h
    have ha : P.get_position a y = none := h a (List.mem_cons_self _ _)
    simp only [row_flag, Bool.or_true, if_true, ha, Option.isNone_none]
    exact ih (fun b hb => h b (List.mem_cons_of_mem _ hb))

/-- If the largest column position is queried on a row and is unmappable, the
row ends with the flag set. -/
theorem row_flag_of_last_unmappable (P : SatelliteProjection R) (ts : Nat) (y v : Int)
    (hv : P.get_position v y = none) :
    ∀ (xs : List Int) (f : Bool), xs.Pairwise (· ≤ ·) → (∀ a ∈ xs, a ≤ v) →
      (v, y) ∈ row_queries P ts y xs f → row_flag P ts y xs f = true := by
  intro xs
  induction xs with
  | nil => intro f _ _ h; simp [row_queries] at h
  | cons a xs ih =>
    intro f hs hle h
    have hp := List.pairwise_cons.mp hs
    have hle' : ∀ b ∈ xs, b ≤ v := fun b hb => hle b (List.mem_cons_of_mem _ hb)
    unfold row_queries at h
    unfold row_flag
    split at h
    · rename_i hc
      rw [if_pos hc]
      by_cases hav : a = v
      · subst hav
        rw [hv]
        apply row_flag_all_unmappable
        intro b hb
        have : b = a := le_antisymm (hle' b hb) (hp.1 b hb)
        rw [this]; exact hv
      · rcases List.mem_cons.mp h with h | h
        · exact absurd (congrArg Prod.fst h).symm hav
        · exact ih _ hp.2 hle' h
    · rename_i hc
      rw [if_neg hc]
      exact ih _ hp.2 hle' h

/-! ## Facts about the column positions -/

theorem stride_lt_iff (w s : Int) (hs : 0 < s) (k : Nat) :
    k < (ceil_div w s).toNat ↔ (k : Int) * s < w := by
  unfold ceil_div
  constructor
  · intro h
    have h1 : (k : Int) + 1 ≤ (w + s - 1) / s := by omega
    have h2 := (Int.le_ediv_iff_mul_le hs).mp h1
    nlinarith
  · intro h
    have h1 : ((k : Int) + 1) * s ≤ w + s - 1 := by nlinarith
    have h2 := (Int.le_ediv_iff_mul_le hs).mpr h1
    omega

theorem stride_values_mem (w s : Int) (hs : 0 < s) (x : Int)
    (h : x ∈ stride_values w s) :
    x = w - 1 ∨ ∃ k : Nat, x = (k : Int) * s ∧ (k : Int) * s < w := by
  unfold stride_values at h
  rcases List.mem_append.mp h with h | h
  · obtain ⟨k, hk, rfl⟩ := List.mem_map.mp h
    exact Or.inr ⟨k, rfl, (stride_lt_iff w s hs k).mp (List.mem_range.mp hk)⟩
  · exact Or.inl (List.mem_singleton.mp h)

theorem stride_values_le (w s : Int) (hs : 0 < s) :
    ∀ x ∈ stride_values w s, x ≤ w - 1 := by
  intro x h
  rcases stride_values_mem w s hs x h with h | ⟨k, rfl, hk⟩ <;> omega

theorem stride_values_nonneg (w s : Int) (hs : 0 < s) (hw : 1 ≤ w) :
    ∀ x ∈ stride_values w s, 0 ≤ x := by
  intro x h
  rcases stride_values_mem w s hs x h with h | ⟨k, rfl, _⟩
  · omega
  · positivity

theorem stride_values_sorted (w s : Int) (hs : 0 < s) :
    (stride_values w s).Pairwise (· ≤ ·) := by
  unfold stride_values
  refine List.pairwise_append.mpr ⟨?_, List.pairwise_singleton _ _, ?_⟩
  · rw [List.pairwise_map]
    refine (List.pairwise_lt_range _).imp ?_
    intro a b hab
    have : (a : Int) < b := by exact_mod_cast hab
    nlinarith
  · intro a ha b hb
    rw [List.mem_singleton.mp hb]
    exact stride_values_le w s hs a (List.mem_append_left _ ha)

theorem stride_values_length (w s : Int) :
    (stride_values w s).length = (ceil_div w s).toNat + 1 := by
  simp [stride_values]

theorem stride_values_last_mem (w s : Int) : w - 1 ∈ stride_values w s := by
  simp [stride_values]

/-! ## Facts about the whole scan -/

theorem gcps_after_mem (P : SatelliteProjection R) (ts : Nat) (values : List Int)
    (g : GCP R) :
    ∀ n : Nat, g ∈ gcps_after P ts values n ↔
      ∃ k : Nat, k < n ∧ g ∈ row_gcps P ts (k : Int) values (flag_after P ts values k) := by
  intro n
  induction n with
  | zero => simp [gcps_after]
  | succ n ih =>
    unfold gcps_after
    rw [List.mem_append, ih]
    constructor
    · rintro (⟨k, hk, h⟩ | h)
      · exact ⟨k, by omega, h⟩
      · exact ⟨n, by omega, h⟩
    · rintro ⟨k, hk, h⟩
      by_cases e : k = n
      · subst e; exact Or.inr h
      · exact Or.inl ⟨k, by omega, h⟩

theorem queries_after_mem (P : SatelliteProjection R) (ts : Nat) (values : List Int)
    (q : Int × Int) :
    ∀ n : Nat, q ∈ queries_after P ts values n ↔
      ∃ k : Nat, k < n ∧ q ∈ row_queries P ts (k : Int) values (flag_after P ts values k) := by
  intro n
  induction n with
  | zero => simp [queries_after]
  | succ n ih =>
    unfold queries_after
    rw [List.mem_append, ih]
    constructor
    · rintro (⟨k, hk, h⟩ | h)
      · exact ⟨k, by omega, h⟩
      · exact ⟨n, by omega, h⟩
    · rintro ⟨k, hk, h⟩
      by_cases e : k = n
      · subst e; exact Or.inr h
      · exact Or.inl ⟨k, by omega, h⟩

/-- A query on row `y` belongs to the pass over row `y`. -/
theorem queries_after_row (P : SatelliteProjection R) (ts : Nat) (values : List Int)
    (n y : Nat) (x : Int) (h : (x, (y : Int)) ∈ queries_after P ts values n) :
    y < n ∧ (x, (y : Int)) ∈ row_queries P ts (y : Int) values (flag_after P ts values y) := by
  obtain ⟨k, hk, hq⟩ := (queries_after_mem P ts values _ n).mp h
  have e : (y : Int) = (k : Int) := (row_queries_mem P ts _ _ _ _ hq).1
  have e' : y = k := by exact_mod_cast e
  subst e'
  exact ⟨hk, hq⟩

theorem gcps_after_pairwise (P : SatelliteProjection R) (ts : Nat) (values : List Int)
    (hv : values.Pairwise (· ≤ ·)) :
    ∀ n : Nat, (gcps_after P ts values n).Pairwise scan_le := by
  intro n
  induction n with
  | zero => simp [gcps_after]
  | succ n ih =>
    unfold gcps_after
    refine List.pairwise_append.mpr ⟨ih, row_gcps_pairwise P ts _ values _ hv, ?_⟩
    intro a ha b hb
    obtain ⟨k, hk, hak⟩ := (gcps_after_mem P ts values a n).mp ha
    have h1 := (row_gcps_mem P ts _ values _ a hak).1
    have h2 := (row_gcps_mem P ts _ values _ b hb).1
    left
    rw [h1, h2]
    exact_mod_cast hk

theorem row_gcps_eq_filterMap (P : SatelliteProjection R) (ts : Nat) (y : Int) :
    ∀ (xs : List Int) (f : Bool),
      row_gcps P ts y xs f
        = (row_queries P ts y xs f).filterMap (fun q => gcp_at P q.2 q.1) := by
  intro xs
  induction xs with
  | nil => intro f; rfl
  | cons a xs ih =>
    intro f
    unfold row_gcps row_queries
    split
    · cases hg : P.get_position a y with
      | none => simp [List.filterMap_cons, gcp_at, hg, ih]
      | some position => simp [List.filterMap_cons, gcp_at, hg, ih]
    · exact ih false

theorem gcps_after_eq_filterMap (P : SatelliteProjection R) (ts : Nat) (values : List Int) :
    ∀ n : Nat, gcps_after P ts values n
      = (queries_after P ts values n).filterMap (fun q => gcp_at P q.2 q.1) := by
  intro n
  induction n with
  | zero => rfl
  | succ n ih =>
    rw [gcps_after, queries_after, List.filterMap_append, ih, row_gcps_eq_filterMap]

/-! ## Scan order (claim C1) -/

/-- C1: for positive spacings the sequence returned by `compute_gcps` is in
scan order: of two ground control points at positions `i < j` of the result,
the first lies on an earlier row, or on the same row at a column that is not to
the right of the second.  The call does return whenever the stride arithmetic
of lines 15-18 stays within `int`. -/
theorem compute_gcps_scan_order (P : SatelliteProjection R) (timestamps_size : Nat)
    (hx : 0 < P.gcp_spacing_x) (hy : 0 < P.gcp_spacing_y) :
    (∀ gcps : List (GCP R), compute_gcps P timestamps_size = .ok gcps →
      ∀ (i j : Nat) (hi : i < gcps.length) (hj : j < gcps.length), i < j →
        (gcps[i].y < gcps[j].y ∨ (gcps[i].y = gcps[j].y ∧ gcps[i].x ≤ gcps[j].x))) ∧
    (strides_in_int_range P →
      ∃ gcps : List (GCP R), compute_gcps P timestamps_size = .ok gcps) := by
  constructor
  · intro gcps hg
    have hv := column_values_of_compute_gcps P timestamps_size hx gcps hg
    rw [compute_gcps_eq P timestamps_size hv hy] at hg
    cases hg
    have h := gcps_after_pairwise P timestamps_size _
      (stride_values_sorted P.img_size_x P.gcp_spacing_x hx) P.img_size_y.toNat
    exact List.pairwise_iff_getElem.mp h
  · intro hr
    exact ⟨_, compute_gcps_eq P timestamps_size (column_values_eq P hx hr) hy⟩

/-- Witness of `compute_gcps_scan_order` on `carry_example`: the call returns
five ground control points, and the first two of them are in scan order. -/
theorem compute_gcps_scan_order_witness :
    (0 < carry_example.gcp_spacing_x ∧ 0 < carry_example.gcp_spacing_y ∧
      strides_in_int_range carry_example ∧
      compute_gcps carry_example 3
        = .ok [⟨0, 0, 0, 0⟩, ⟨0, 1, 0, 1⟩, ⟨0, 2, 0, 2⟩, ⟨1, 2, 1, 2⟩, ⟨1, 2, 1, 2⟩]) ∧
    ((⟨0, 0, 0, 0⟩ : GCP Int).y < (⟨0, 1, 0, 1⟩ : GCP Int).y ∨
      ((⟨0, 0, 0, 0⟩ : GCP Int).y = (⟨0, 1, 0, 1⟩ : GCP Int).y ∧
        (⟨0, 0, 0, 0⟩ : GCP Int).x ≤ (⟨0, 1, 0, 1⟩ : GCP Int).x)) ∧
    ∃ gcps : List (GCP Int), compute_gcps carry_example 3 = .ok gcps :=
  have h := compute_gcps_scan_order carry_example 3 (by decide) (by decide)
  ⟨⟨by decide, by decide, by decide, rfl⟩,
    h.1 [⟨0, 0, 0, 0⟩, ⟨0, 1, 0, 1⟩, ⟨0, 2, 0, 2⟩, ⟨1, 2, 1, 2⟩, ⟨1, 2, 1, 2⟩] rfl 0 1
      (by decide) (by decide) (by decide),
    h.2 (by decide)⟩

/-! ## Queried pixels and emitted points -/

theorem queried_of_eq (P : SatelliteProjection R) (ts : Nat) (qs : List (Int × Int))
    (h : locate_queries P ts = .ok qs) (x y : Int) :
    queried P ts x y ↔ (x, y) ∈ qs := by
  unfold queried
  rw [h]
  constructor
  · rintro ⟨qs', e, hm⟩
    cases e
    exact hm
  · intro hm
    exact ⟨qs, rfl, hm⟩

theorem emitted_of_eq (P : SatelliteProjection R) (ts : Nat) (gs : List (GCP R))
    (h : compute_gcps P ts = .ok gs) (g : GCP R) :
    emitted P ts g ↔ g ∈ gs := by
  unfold emitted
  rw [h]
  constructor
  · rintro ⟨gs', e, hm⟩
    cases e
    exact hm
  · intro hm
    exact ⟨gs, rfl, hm⟩

theorem queried_iff (P : SatelliteProjection R) (ts : Nat)
    (hv : column_values P = some (stride_values P.img_size_x P.gcp_spacing_x))
    (hy : 0 < P.gcp_spacing_y) (x y : Int) :
    queried P ts x y ↔ (x, y) ∈ queries_after P ts
      (stride_values P.img_size_x P.gcp_spacing_x) P.img_size_y.toNat :=
  queried_of_eq P ts _ (locate_queries_eq P ts hv hy) x y

theorem emitted_iff (P : SatelliteProjection R) (ts : Nat)
    (hv : column_values P = some (stride_values P.img_size_x P.gcp_spacing_x))
    (hy : 0 < P.gcp_spacing_y) (g : GCP R) :
    emitted P ts g ↔ g ∈ gcps_after P ts
      (stride_values P.img_size_x P.gcp_spacing_x) P.img_size_y.toNat :=
  emitted_of_eq P ts _ (compute_gcps_eq P ts hv hy) g

/-- A call during which a pixel is queried was given its column list. -/
theorem column_values_of_queried (P : SatelliteProjection R) (ts : Nat)
    (hx : 0 < P.gcp_spacing_x) (x y : Int) (h : queried P ts x y) :
    column_values P = some (stride_values P.img_size_x P.gcp_spacing_x) := by
  obtain ⟨qs, hq, _⟩ := h
  exact column_values_of_locate_queries P ts hx qs hq

/-- A call that returns a ground control point was given its column list. -/
theorem column_values_of_emitted (P : SatelliteProjection R) (ts : Nat)
    (hx : 0 < P.gcp_spacing_x) (g : GCP R) (h : emitted P ts g) :
    column_values P = some (stride_values P.img_size_x P.gcp_spacing_x) := by
  obtain ⟨gs, hg, _⟩ := h
  exact column_values_of_compute_gcps P ts hx gs hg

/-! ## Selected rows are fully attempted (claim C2) -/

theorem selected_row_queries (P : SatelliteProjection R) (ts : Nat) (values : List Int)
    (n k : Nat) (hk : k < n) (hsel : row_selected P ts (k : Int) = true)
    (x : Int) (hx : x ∈ values) :
    (x, (k : Int)) ∈ queries_after P ts values n := by
  refine (queries_after_mem P ts values _ n).mpr ⟨k, hk, ?_⟩
  rw [row_queries_selected P ts _ hsel]
  exact List.mem_map.mpr ⟨x, hx, rfl⟩

theorem selected_row_gcps (P : SatelliteProjection R) (ts : Nat) (values : List Int)
    (n k : Nat) (hk : k < n) (hsel : row_selected P ts (k : Int) = true)
    (x : Int) (hx : x ∈ values) (lon lat : R)
    (hp : P.get_position x (k : Int) = some ⟨lon, lat⟩) :
    (⟨x, (k : Int), lon, lat⟩ : GCP R) ∈ gcps_after P ts values n := by
  refine (gcps_after_mem P ts values _ n).mpr ⟨k, hk, ?_⟩
  rw [row_gcps_selected P ts _ hsel]
  exact List.mem_filterMap.mpr ⟨x, hx, by simp [gcp_at, hp]⟩

/-- C2: for positive spacings, every row `0 ≤ y < img_size_y` with
`y % gcp_spacing_y = 0` or `y + 1 = timestamps.size()` is fully attempted,
whatever `get_position` returns anywhere: at every column sample position `x`
the call queries `get_position (x, y)`, and if that pixel is mappable the
result contains its ground control point `(x, y, lon, lat)`.  With row spacing
4, image height 10 and 10 timestamps these rows are 0, 4, 8 and 9. -/
theorem selected_row_fully_attempted (P : SatelliteProjection R) (timestamps_size : Nat)
    (hx : 0 < P.gcp_spacing_x) (hy : 0 < P.gcp_spacing_y)
    (y : Int) (h0 : 0 ≤ y) (h1 : y < P.img_size_y)
    (hsel : y % P.gcp_spacing_y = 0 ∨ y + 1 = (timestamps_size : Int))
    (values : List Int) (hv : column_values P = some values)
    (x : Int) (hxv : x ∈ values) :
    (queried P timestamps_size x y ∧
      ∀ lon lat : R, P.get_position x y = some ⟨lon, lat⟩ →
        emitted P timestamps_size ⟨x, y, lon, lat⟩) ∧
    selected_rows { P with img_size_y := 10, gcp_spacing_y := 4 } 10 = [0, 4, 8, 9] := by
  refine ⟨?_, rfl⟩
  have hs : row_selected P timestamps_size y = true :=
    row_selected_of P timestamps_size y hy h0 hsel
  obtain ⟨k, rfl⟩ := Int.eq_ofNat_of_zero_le h0
  have hk : k < P.img_size_y.toNat := by omega
  have e := column_values_inj P hx values hv
  rw [e] at hxv hv
  exact ⟨(queried_iff P timestamps_size hv hy _ _).mpr
      (selected_row_queries P timestamps_size _ _ k hk hs x hxv),
    fun lon lat hp => (emitted_iff P timestamps_size hv hy _).mpr
      (selected_row_gcps P timestamps_size _ _ k hk hs x hxv lon lat hp)⟩

/-- Witness of `selected_row_fully_attempted`: on the last row, 9, of
`ten_rows` with 10 timestamps the column position 0 is queried and emitted. -/
theorem selected_row_fully_attempted_witness :
    (0 < ten_rows.gcp_spacing_x ∧ 0 < ten_rows.gcp_spacing_y ∧ (0 : Int) ≤ 9 ∧
      (9 : Int) < ten_rows.img_size_y ∧
      ((9 : Int) % ten_rows.gcp_spacing_y = 0 ∨ (9 : Int) + 1 = ((10 : Nat) : Int)) ∧
      column_values ten_rows = some [0, 2, 2] ∧ (0 : Int) ∈ [(0 : Int), 2, 2] ∧
      ten_rows.get_position 0 9 = some ⟨0, 9⟩) ∧
    (queried ten_rows 10 0 9 ∧ emitted ten_rows 10 ⟨0, 9, 0, 9⟩) ∧
    selected_rows { ten_rows with img_size_y := 10, gcp_spacing_y := 4 } 10 = [0, 4, 8, 9] :=
  have h := selected_row_fully_attempted ten_rows 10 (by decide) (by decide) 9
    (by decide) (by decide) (by decide) [0, 2, 2] rfl 0 (by decide)
  ⟨by decide, ⟨h.1.1, h.1.2 0 9 rfl⟩, h.2⟩

/-! ## The rightmost column (claim C3) -/

/-- A position is queried, and emits when mappable, as soon as the row is
selected or entered with the flag set and every other position of the row is
unmappable. -/
theorem row_attempted_of_others_unmappable (P : SatelliteProjection R) (ts : Nat)
    (y v : Int) (xs : List Int) (f : Bool)
    (hc : (row_selected P ts y || f) = true) (hv : v ∈ xs)
    (hu : ∀ a ∈ xs, a ≠ v → P.get_position a y = none) :
    (v, y) ∈ row_queries P ts y xs f ∧
    ∀ position, P.get_position v y = some position →
      (⟨v, y, position.lon, position.lat⟩ : GCP R) ∈ row_gcps P ts y xs f := by
  obtain ⟨pre, post, rfl, hpre⟩ := List.eq_append_cons_of_mem hv
  refine row_prefix_attempted P ts y pre v post f hc ?_
  intro a ha
  exact hu a (List.mem_append_left _ ha) (fun e => hpre (e ▸ ha))

/-- A row that satisfies no row condition and on which some pixel is queried
was entered with the flag set. -/
theorem flag_after_of_queried (P : SatelliteProjection R) (ts : Nat) (values : List Int)
    (k : Nat) (x : Int) (hns : row_selected P ts (k : Int) = false)
    (hq : (x, (k : Int)) ∈ row_queries P ts (k : Int) values (flag_after P ts values k)) :
    flag_after P ts values k = true := by
  by_contra hf
  have hf' : flag_after P ts values k = false := by simpa using hf
  rw [hf', (row_skipped P ts _ hns _).1] at hq
  exact List.not_mem_nil _ hq

/-- C3 as stated fails on `carry_example` with 3 timestamps: row 1 is sampled
(the pixel `(0, 1)` is queried and emits a ground control point) because the
flag is carried over from the unmappable pixel `(1, 0)`, but the mappable
rightmost pixel `(1, 1)` is neither queried nor emitted. -/
theorem rightmost_column_counterexample :
    (0 < carry_example.gcp_spacing_x ∧ 0 < carry_example.gcp_spacing_y ∧
      1 ≤ carry_example.img_size_x) ∧
    locate_queries carry_example 3
      = .ok [(0, 0), (1, 0), (1, 0), (0, 1), (0, 2), (1, 2), (1, 2)] ∧
    compute_gcps carry_example 3
      = .ok [⟨0, 0, 0, 0⟩, ⟨0, 1, 0, 1⟩, ⟨0, 2, 0, 2⟩, ⟨1, 2, 1, 2⟩, ⟨1, 2, 1, 2⟩] ∧
    queried carry_example 3 0 1 ∧
    ¬ queried carry_example 3 (carry_example.img_size_x - 1) 1 ∧
    emitted carry_example 3 ⟨0, 1, 0, 1⟩ ∧
    carry_example.get_position (carry_example.img_size_x - 1) 1 = some ⟨1, 1⟩ ∧
    ∀ g : GCP Int, emitted carry_example 3 g →
      ¬ (g.x = carry_example.img_size_x - 1 ∧ g.y = 1) :=
  ⟨by decide, rfl, rfl,
    (queried_of_eq carry_example 3 _ rfl 0 1).mpr (by decide),
    fun h => absurd ((queried_of_eq carry_example 3 _ rfl _ 1).mp h) (by decide),
    (emitted_of_eq carry_example 3 _ rfl _).mpr (by decide),
    by decide,
    fun g hg => (by decide : ∀ g ∈ ([⟨0, 0, 0, 0⟩, ⟨0, 1, 0, 1⟩, ⟨0, 2, 0, 2⟩,
        ⟨1, 2, 1, 2⟩, ⟨1, 2, 1, 2⟩] : List (GCP Int)),
          ¬ (g.x = carry_example.img_size_x - 1 ∧ g.y = 1)) g
      ((emitted_of_eq carry_example 3 _ rfl g).mp hg)⟩

/-- C3, amended: for positive spacings (and any image width), if row `y` is
sampled at all and either the row is selected by the row conditions
(`y % gcp_spacing_y = 0` or `y + 1 = timestamps.size()`) or `get_position` is
unmappable at every column sample position of row `y` left of the rightmost
column, then `get_position (img_size_x - 1, y)` is queried, and if it is
mappable the result contains its ground control point. -/
theorem rightmost_column_sampled (P : SatelliteProjection R) (timestamps_size : Nat)
    (hx : 0 < P.gcp_spacing_x) (hy : 0 < P.gcp_spacing_y) (y : Int)
    (hsampled : ∃ x, queried P timestamps_size x y)
    (hrow : (y % P.gcp_spacing_y = 0 ∨ y + 1 = (timestamps_size : Int)) ∨
      (∀ values, column_values P = some values →
        ∀ x ∈ values, x < P.img_size_x - 1 → P.get_position x y = none)) :
    queried P timestamps_size (P.img_size_x - 1) y ∧
    ∀ lon lat : R, P.get_position (P.img_size_x - 1) y = some ⟨lon, lat⟩ →
      emitted P timestamps_size ⟨P.img_size_x - 1, y, lon, lat⟩ := by
  obtain ⟨x, hq⟩ := hsampled
  have hv := column_values_of_queried P timestamps_size hx x y hq
  rw [queried_iff P timestamps_size hv hy] at hq ⊢
  obtain ⟨k, hk, hqk⟩ := (queries_after_mem P timestamps_size _ _ _).mp hq
  obtain rfl : y = (k : Int) := (row_queries_mem P timestamps_size _ _ _ _ hqk).1
  have hlast := stride_values_last_mem P.img_size_x P.gcp_spacing_x
  by_cases hs : row_selected P timestamps_size (k : Int) = true
  · exact ⟨selected_row_queries P timestamps_size _ _ k hk hs _ hlast,
      fun lon lat hp => (emitted_iff P timestamps_size hv hy _).mpr
        (selected_row_gcps P timestamps_size _ _ k hk hs _ hlast lon lat hp)⟩
  · have hns : row_selected P timestamps_size (k : Int) = false := by simpa using hs
    have hu : ∀ a ∈ stride_values P.img_size_x P.gcp_spacing_x, a ≠ P.img_size_x - 1 →
        P.get_position a (k : Int) = none := by
      rcases hrow with hsel | hu
      · exact absurd (row_selected_of P timestamps_size _ hy (by omega) hsel) hs
      · intro a ha hne
        have := stride_values_le P.img_size_x P.gcp_spacing_x hx a ha
        exact hu _ hv a ha (by omega)
    have hf := flag_after_of_queried P timestamps_size _ k x hns hqk
    have hc : (row_selected P timestamps_size (k : Int) || flag_after P timestamps_size
        (stride_values P.img_size_x P.gcp_spacing_x) k) = true := by rw [hf]; simp
    have h := row_attempted_of_others_unmappable P timestamps_size (k : Int)
      (P.img_size_x - 1) _ _ hc hlast hu
    exact ⟨(queries_after_mem P timestamps_size _ _ _).mpr ⟨k, hk, h.1⟩,
      fun lon lat hp => (emitted_iff P timestamps_size hv hy _).mpr
        ((gcps_after_mem P timestamps_size _ _ _).mpr ⟨k, hk, h.2 ⟨lon, lat⟩ hp⟩)⟩

/-- Witness of `rightmost_column_sampled`: row 1 of `carry_through` satisfies
no row condition, is entered with the flag set and is unmappable left of the
rightmost column, whose ground control point is emitted. -/
theorem rightmost_column_sampled_witness :
    (0 < carry_through.gcp_spacing_x ∧ 0 < carry_through.gcp_spacing_y ∧
      column_values carry_through = some [0, 1, 1] ∧
      carry_through.get_position 0 1 = none ∧
      ¬ ((1 : Int) % carry_through.gcp_spacing_y = 0 ∨ (1 : Int) + 1 = ((3 : Nat) : Int)) ∧
      carry_through.get_position (carry_through.img_size_x - 1) 1 = some ⟨1, 1⟩) ∧
    queried carry_through 3 0 1 ∧
    queried carry_through 3 (carry_through.img_size_x - 1) 1 ∧
    emitted carry_through 3 ⟨carry_through.img_size_x - 1, 1, 1, 1⟩ :=
  have hq : queried carry_through 3 0 1 :=
    (queried_of_eq carry_through 3 _ rfl 0 1).mpr (by decide)
  have h := rightmost_column_sampled carry_through 3 (by decide) (by decide) 1 ⟨0, hq⟩
    (Or.inr (fun values hv => by
      obtain rfl : [0, 1, 1] = values := Option.some.inj hv
      decide))
  ⟨⟨by decide, by decide, rfl, rfl, by decide, rfl⟩, hq, h.1, h.2 1 1 rfl⟩

/-! ## Number of ground control points when every pixel is mappable (claim C4) -/

theorem row_flag_all_mappable (P : SatelliteProjection R) (ts : Nat) (y : Int)
    (hall : ∀ x y, (P.get_position x y).isSome = true) :
    ∀ xs : List Int, row_flag P ts y xs false = false := by
  intro xs
  induction xs with
  | nil => rfl
  | cons a xs ih =>
    have h : (P.get_position a y).isNone = false := by
      have := hall a y
      cases hg : P.get_position a y <;> simp [hg] at this ⊢
    unfold row_flag
    split
    · rw [h]; exact ih
    · exact ih

theorem flag_after_all_mappable (P : SatelliteProjection R) (ts : Nat) (values : List Int)
    (hall : ∀ x y, (P.get_position x y).isSome = true) :
    ∀ n : Nat, flag_after P ts values n = false := by
  intro n
  induction n with
  | zero => rfl
  | succ n ih =>
    unfold flag_after
    rw [ih]
    exact row_flag_all_mappable P ts _ hall values

theorem length_filterMap_gcp_at (P : SatelliteProjection R) (y : Int)
    (hall : ∀ x y, (P.get_position x y).isSome = true) :
    ∀ xs : List Int, (xs.filterMap (gcp_at P y)).length = xs.length := by
  intro xs
  induction xs with
  | nil => rfl
  | cons a xs ih =>
    have := hall a y
    cases hg : P.get_position a y with
    | none => simp [hg] at this
    | some position => simp [List.filterMap_cons, gcp_at, hg, ih]

theorem gcps_after_length_all_mappable (P : SatelliteProjection R) (ts : Nat)
    (values : List Int) (hall : ∀ x y, (P.get_position x y).isSome = true) :
    ∀ n : Nat, (gcps_after P ts values n).length
      = ((List.range n).filter (fun k : Nat => row_selected P ts (k : Int))).length
          * values.length := by
  intro n
  induction n with
  | zero => simp [gcps_after]
  | succ n ih =>
    unfold gcps_after
    rw [List.length_append, ih, flag_after_all_mappable P ts values hall n,
      List.range_succ, List.filter_append, List.length_append, Nat.add_mul]
    congr 1
    by_cases hs : row_selected P ts (n : Int) = true
    · rw [row_gcps_selected P ts _ hs, length_filterMap_gcp_at P _ hall]
      simp [List.filter_cons, hs]
    · have hns : row_selected P ts (n : Int) = false := by simpa using hs
      rw [(row_skipped P ts _ hns values).2.1]
      simp [List.filter_cons, hns]

/-- C4 as stated fails on the 5 x 3 image with column spacing 2 and row spacing
1 on which every pixel is mappable: 12 ground control points are returned,
while 3 sampled rows times `ceil(5 / 2) = 3` column positions (no extra one,
because `5 - 1` is a multiple of 2) is 9. -/
theorem gcp_count_counterexample :
    (0 < (2 : Int) ∧ 0 < (1 : Int) ∧ (1 : Int) ≤ 5) ∧
    (compute_gcps (all_mappable (fun n : Int => n) 5 3 2 1) 3).map List.length = .ok 12 ∧
    (selected_rows (all_mappable (fun n : Int => n) 5 3 2 1) 3).length = 3 ∧
    ceil_div 5 2 + (if ((5 : Int) - 1) % 2 = 0 then 0 else 1) = 3 ∧
    (12 : Int) ≠ 3 * 3 :=
  ⟨by decide, rfl, by decide, by decide, by decide⟩

/-- C4, amended: for positive spacings and `img_size_x ≥ 1`, with stride
arithmetic, image height and number of timestamps within the range of `int`, if
every pixel is mappable then the call returns and the number of ground control
points returned is the number of rows `0 ≤ y < img_size_y` with
`y % gcp_spacing_y = 0` or `y + 1 = timestamps.size()`, times the number
`ceil(img_size_x / gcp_spacing_x) + 1` of column sample positions (the appended
rightmost column always counts, also when it repeats a stride). -/
theorem gcp_count_all_mappable (P : SatelliteProjection R) (timestamps_size : Nat)
    (hx : 0 < P.gcp_spacing_x) (hy : 0 < P.gcp_spacing_y) (hw : 1 ≤ P.img_size_x)
    (hr : strides_in_int_range P) (hh : P.img_size_y ≤ int_max)
    (hts : (timestamps_size : Int) ≤ int_max)
    (hall : ∀ x y, (P.get_position x y).isSome = true) :
    ∃ gcps : List (GCP R), compute_gcps P timestamps_size = .ok gcps ∧
      (gcps.length : Int)
        = (((List.range P.img_size_y.toNat).filter (fun k : Nat =>
              (k : Int) % P.gcp_spacing_y = 0 ∨ (k : Int) + 1 = (timestamps_size : Int))).length : Int)
          * (ceil_div P.img_size_x P.gcp_spacing_x + 1) := by
  have hv := column_values_eq P hx hr
  refine ⟨_, compute_gcps_eq P timestamps_size hv hy, ?_⟩
  rw [gcps_after_length_all_mappable P timestamps_size _ hall, stride_values_length]
  have hc := ceil_div_nonneg P.img_size_x P.gcp_spacing_x hx (by omega)
  have e : (List.range P.img_size_y.toNat).filter
        (fun k : Nat => row_selected P timestamps_size (k : Int))
      = (List.range P.img_size_y.toNat).filter (fun k : Nat =>
          decide ((k : Int) % P.gcp_spacing_y = 0 ∨ (k : Int) + 1 = (timestamps_size : Int))) := by
    apply List.filter_congr
    intro k hk
    have hk' := List.mem_range.mp hk
    have := row_selected_iff P timestamps_size (k : Int) hy (by omega) (by omega) hts
    by_cases h : (k : Int) % P.gcp_spacing_y = 0 ∨ (k : Int) + 1 = (timestamps_size : Int)
    · rw [this.mpr h, decide_eq_true h]
    · have hn : row_selected P timestamps_size (k : Int) = false := by
        simpa using fun hh => h (this.mp hh)
      rw [hn, decide_eq_false h]
  rw [e]
  push_cast
  rw [Int.toNat_of_nonneg hc]

/-- Witness of `gcp_count_all_mappable`: the 5 x 3 image with column spacing 2
and row spacing 1 and 3 timestamps returns `3 * (3 + 1)` ground control
points. -/
theorem gcp_count_all_mappable_witness :
    (0 < (2 : Int) ∧ 0 < (1 : Int) ∧ (1 : Int) ≤ 5 ∧
      strides_in_int_range (all_mappable (fun n : Int => n) 5 3 2 1) ∧
      (3 : Int) ≤ int_max ∧ ((3 : Nat) : Int) ≤ int_max) ∧
    ∃ gcps : List (GCP Int),
      compute_gcps (all_mappable (fun n : Int => n) 5 3 2 1) 3 = .ok gcps ∧
      (gcps.length : Int)
        = (((List.range (3 : Int).toNat).filter (fun k : Nat =>
              (k : Int) % 1 = 0 ∨ (k : Int) + 1 = ((3 : Nat) : Int))).length : Int)
          * (ceil_div 5 2 + 1) :=
  ⟨by decide, gcp_count_all_mappable (all_mappable (fun n : Int => n) 5 3 2 1) 3
    (by decide) (by decide) (by decide) (by decide) (by decide) (by decide)
    (fun _ _ => rfl)⟩

/-! ## The cross-row carry (claim C5) -/

/-- If the rightmost column of row `k` is queried and unmappable, the flag is
set on entry to row `k + 1`. -/
theorem flag_after_of_last_unmappable (P : SatelliteProjection R) (ts : Nat)
    (hx : 0 < P.gcp_spacing_x) (n k : Nat)
    (hq : (P.img_size_x - 1, (k : Int)) ∈ queries_after P ts
      (stride_values P.img_size_x P.gcp_spacing_x) n)
    (hu : P.get_position (P.img_size_x - 1) (k : Int) = none) :
    flag_after P ts (stride_values P.img_size_x P.gcp_spacing_x) (k + 1) = true := by
  have h := (queries_after_row P ts _ n k _ hq).2
  unfold flag_after
  exact row_flag_of_last_unmappable P ts _ _ hu _ _
    (stride_values_sorted _ _ hx) (stride_values_le _ _ hx) h

/-- C5 as stated fails on `carry_example` with 3 timestamps: the last column
position `(1, 0)` of row 0 is queried and unmappable and row 1 exists, yet on
row 1 only the first column position is queried; the column position 1 of row 1
is mappable but `(1, 1)` is neither queried nor emitted. -/
theorem carry_counterexample :
    (0 < carry_example.gcp_spacing_x ∧ 0 < carry_example.gcp_spacing_y) ∧
    column_values carry_example = some [0, 1, 1] ∧
    locate_queries carry_example 3
      = .ok [(0, 0), (1, 0), (1, 0), (0, 1), (0, 2), (1, 2), (1, 2)] ∧
    compute_gcps carry_example 3
      = .ok [⟨0, 0, 0, 0⟩, ⟨0, 1, 0, 1⟩, ⟨0, 2, 0, 2⟩, ⟨1, 2, 1, 2⟩, ⟨1, 2, 1, 2⟩] ∧
    queried carry_example 3 (carry_example.img_size_x - 1) 0 ∧
    carry_example.get_position (carry_example.img_size_x - 1) 0 = none ∧
    (0 : Int) + 1 < carry_example.img_size_y ∧
    (1 : Int) ∈ [(0 : Int), 1, 1] ∧
    ¬ queried carry_example 3 1 (0 + 1) ∧
    carry_example.get_position 1 (0 + 1) = some ⟨1, 1⟩ ∧
    ¬ emitted carry_example 3 ⟨1, 0 + 1, 1, 1⟩ :=
  ⟨by decide, rfl, rfl, rfl,
    (queried_of_eq carry_example 3 _ rfl _ 0).mpr (by decide),
    by decide, by decide, by decide,
    fun h => absurd ((queried_of_eq carry_example 3 _ rfl 1 (0 + 1)).mp h) (by decide),
    by decide,
    fun h => absurd ((emitted_of_eq carry_example 3 _ rfl _).mp h) (by decide)⟩

/-- C5, amended: for positive spacings, if the last column sample position of
row `y` is attempted and unmappable and `y + 1 < img_size_y`, then on row
`y + 1` (whether or not it satisfies a row condition) `get_position` is queried
at the first column sample position and at every further column sample position
all of whose predecessors on row `y + 1` are unmappable, and each such position
that is mappable contributes its ground control point to the result. -/
theorem carry_forces_next_row (P : SatelliteProjection R) (timestamps_size : Nat)
    (hx : 0 < P.gcp_spacing_x) (hy : 0 < P.gcp_spacing_y) (y : Int)
    (hq : queried P timestamps_size (P.img_size_x - 1) y)
    (hu : P.get_position (P.img_size_x - 1) y = none)
    (hnext : y + 1 < P.img_size_y)
    (pre : List Int) (x : Int) (post : List Int)
    (hv : column_values P = some (pre ++ x :: post))
    (hpre : ∀ a ∈ pre, P.get_position a (y + 1) = none) :
    queried P timestamps_size x (y + 1) ∧
    ∀ lon lat : R, P.get_position x (y + 1) = some ⟨lon, lat⟩ →
      emitted P timestamps_size ⟨x, y + 1, lon, lat⟩ := by
  have hv' := column_values_of_queried P timestamps_size hx _ y hq
  rw [queried_iff P timestamps_size hv' hy] at hq ⊢
  obtain ⟨k, _, hqk⟩ := (queries_after_mem P timestamps_size _ _ _).mp hq
  obtain rfl : y = (k : Int) := (row_queries_mem P timestamps_size _ _ _ _ hqk).1
  have hf := flag_after_of_last_unmappable P timestamps_size hx _ k hq hu
  have hk : k + 1 < P.img_size_y.toNat := by omega
  have e : ((k : Int) + 1) = ((k + 1 : Nat) : Int) := by push_cast; ring
  rw [e] at hpre ⊢
  have hc : (row_selected P timestamps_size ((k + 1 : Nat) : Int) || flag_after P
      timestamps_size (stride_values P.img_size_x P.gcp_spacing_x) (k + 1)) = true := by
    rw [hf]; simp
  have h := row_prefix_attempted P timestamps_size ((k + 1 : Nat) : Int) pre x post _ hc hpre
  rw [column_values_inj P hx _ hv] at h
  exact ⟨(queries_after_mem P timestamps_size _ _ _).mpr ⟨k + 1, hk, h.1⟩,
    fun lon lat hp => (emitted_iff P timestamps_size hv' hy _).mpr
      ((gcps_after_mem P timestamps_size _ _ _).mpr ⟨k + 1, hk, h.2 ⟨lon, lat⟩ hp⟩)⟩

/-- Witness of `carry_forces_next_row`: the last column position of row 0 of
`carry_through` is unmappable; on row 1 the first column position is unmappable
and the second one is queried and emitted. -/
theorem carry_forces_next_row_witness :
    (0 < carry_through.gcp_spacing_x ∧ 0 < carry_through.gcp_spacing_y ∧
      carry_through.get_position (carry_through.img_size_x - 1) 0 = none ∧
      (0 : Int) + 1 < carry_through.img_size_y ∧
      column_values carry_through = some ([0] ++ 1 :: [1]) ∧
      (∀ a ∈ [(0 : Int)], carry_through.get_position a (0 + 1) = none) ∧
      carry_through.get_position 1 (0 + 1) = some ⟨1, 1⟩) ∧
    queried carry_through 3 (carry_through.img_size_x - 1) 0 ∧
    queried carry_through 3 1 (0 + 1) ∧
    emitted carry_through 3 ⟨1, 0 + 1, 1, 1⟩ :=
  have hq : queried carry_through 3 (carry_through.img_size_x - 1) 0 :=
    (queried_of_eq carry_through 3 _ rfl _ 0).mpr (by decide)
  have h := carry_forces_next_row carry_through 3 (by decide) (by decide) 0 hq rfl
    (by decide) [0] 1 [1] rfl (by decide)
  ⟨⟨by decide, by decide, rfl, by decide, rfl, by decide, rfl⟩, hq, h.1, h.2 1 1 rfl⟩

/-! ## Pixel coordinates stay inside the image (claim C6) -/

/-- For positive spacings and an image of width at least 1, every ground
control point of the result has `pixel_x` in `[0, img_size_x - 1]` and
`pixel_y` in `[0, img_size_y - 1]`. -/
theorem pixel_bounds (P : SatelliteProjection R) (timestamps_size : Nat)
    (hx : 0 < P.gcp_spacing_x) (hy : 0 < P.gcp_spacing_y) (hw : 1 ≤ P.img_size_x)
    (g : GCP R) (hg : emitted P timestamps_size g) :
    (0 ≤ g.x ∧ g.x ≤ P.img_size_x - 1) ∧ (0 ≤ g.y ∧ g.y ≤ P.img_size_y - 1) := by
  have hv := column_values_of_emitted P timestamps_size hx g hg
  rw [emitted_iff P timestamps_size hv hy] at hg
  obtain ⟨k, hk, hgk⟩ := (gcps_after_mem P timestamps_size _ _ _).mp hg
  have hm := row_gcps_mem P timestamps_size _ _ _ g hgk
  refine ⟨⟨stride_values_nonneg _ _ hx hw _ hm.2.1, stride_values_le _ _ hx _ hm.2.1⟩, ?_⟩
  rw [hm.1]
  omega

/-- C6: the code departs from the claim on the 0 x 1 image with unit spacings
and one timestamp on which every pixel is mappable: line 18 appends
`img_size_x - 1 = -1` although the image has no column, the only column sample
position is `-1`, and the call returns the single ground control point with
`pixel_x = -1`, which is outside `[0, img_size_x - 1]`. -/
theorem pixel_bounds_counterexample :
    (0 < (1 : Int)) ∧
    column_values (all_mappable (fun n : Int => n) 0 1 1 1) = some [-1] ∧
    compute_gcps (all_mappable (fun n : Int => n) 0 1 1 1) 1 = .ok [⟨-1, 0, -1, 0⟩] ∧
    ¬ (0 ≤ (⟨-1, 0, -1, 0⟩ : GCP Int).x ∧ (⟨-1, 0, -1, 0⟩ : GCP Int).x ≤ 0 - 1) :=
  ⟨by decide, rfl, rfl, by decide⟩

/-! ## The list of column sample positions (claim C7) -/

/-- The quotient `ceil_div a b` is the rounded-up rational quotient. -/
theorem ceil_div_eq_ceil (a b : Int) (hb : 0 < b) :
    ceil_div a b = ⌈(a : ℚ) / (b : ℚ)⌉ := by
  unfold ceil_div
  symm
  rw [Int.ceil_eq_iff]
  have hbq : (0 : ℚ) < (b : ℚ) := by exact_mod_cast hb
  have h1 := Int.emod_add_ediv (a + b - 1) b
  have h2 := Int.emod_nonneg (a + b - 1) (ne_of_gt hb)
  have h3 := Int.emod_lt_of_pos (a + b - 1) hb
  set q := (a + b - 1) / b with hq
  set r := (a + b - 1) % b with hr
  have ha : (a : ℚ) = (b : ℚ) * q + r - b + 1 := by
    have : a = b * q + r - b + 1 := by omega
    exact_mod_cast this
  have hr0 : (0 : ℚ) ≤ r := by exact_mod_cast h2
  have hr1 : (r : ℚ) ≤ b - 1 := by
    have : r ≤ b - 1 := by omega
    exact_mod_cast this
  constructor
  · rw [lt_div_iff₀ hbq]
    nlinarith
  · rw [div_le_iff₀ hbq]
    nlinarith

theorem strides_strict (s : Int) (hs : 0 < s) (n : Nat) :
    ((List.range n).map (fun k : Nat => (k : Int) * s)).Pairwise (· < ·) := by
  rw [List.pairwise_map]
  refine (List.pairwise_lt_range n).imp ?_
  intro a b hab
  have : (a : Int) < b := by exact_mod_cast hab
  nlinarith

theorem gcps_after_extend (P : SatelliteProjection R) (ts : Nat) (values : List Int)
    (j : Nat) :
    ∀ n : Nat, j ≤ n → ∃ post, gcps_after P ts values n = gcps_after P ts values j ++ post := by
  intro n
  induction n with
  | zero =>
    intro h
    obtain rfl : j = 0 := by omega
    exact ⟨[], by simp⟩
  | succ n ih =>
    intro h
    by_cases e : j = n + 1
    · subst e; exact ⟨[], by simp⟩
    · obtain ⟨post, hp⟩ := ih (by omega)
      refine ⟨post ++ row_gcps P ts (n : Int) values (flag_after P ts values n), ?_⟩
      rw [gcps_after, hp, List.append_assoc]

/-- When `w - 1` is the stride `k * s`, the column positions end in two copies
of `w - 1`. -/
theorem stride_values_duplicate (w s : Int) (hs : 0 < s) (k : Nat)
    (hk : w - 1 = (k : Int) * s) :
    stride_values w s
      = (List.range k).map (fun i : Nat => (i : Int) * s) ++ [w - 1, w - 1] := by
  have h1 : k < (ceil_div w s).toNat := (stride_lt_iff w s hs k).mpr (by omega)
  have h2 : ¬ (k + 1 < (ceil_div w s).toNat) := by
    intro h
    have := (stride_lt_iff w s hs (k + 1)).mp h
    push_cast at this
    nlinarith
  have e : (ceil_div w s).toNat = k + 1 := by omega
  unfold stride_values
  rw [e, List.range_succ, List.map_append, List.map_singleton, ← hk]
  simp

/-- C7: for a positive column spacing, `img_size_x ≥ 0` and stride arithmetic
within `int`, the loop of lines 15-18 terminates and the list of column sample
positions is the list of the multiples `0, s, 2 s, …` of the column spacing
strictly below `img_size_x`, in increasing order, followed by `img_size_x - 1`;
its length is `ceil(img_size_x / gcp_spacing_x) + 1`; when `img_size_x - 1` is
itself one of these multiples it occurs twice (and otherwise once), and then a
mappable rightmost pixel on a selected row yields two identical consecutive
ground control points. -/
theorem column_positions (P : SatelliteProjection R)
    (hx : 0 < P.gcp_spacing_x) (hw : 0 ≤ P.img_size_x) (hr : strides_in_int_range P) :
    ∃ strides values : List Int,
      column_values P = some values ∧
      values = strides ++ [P.img_size_x - 1] ∧
      strides = (List.range (ceil_div P.img_size_x P.gcp_spacing_x).toNat).map
        (fun k : Nat => (k : Int) * P.gcp_spacing_x) ∧
      (∀ x : Int, x ∈ strides ↔ ∃ k : Nat, x = (k : Int) * P.gcp_spacing_x ∧ x < P.img_size_x) ∧
      strides.Pairwise (· < ·) ∧
      (values.length : Int) = ceil_div P.img_size_x P.gcp_spacing_x + 1 ∧
      ((¬ ∃ k : Nat, P.img_size_x - 1 = (k : Int) * P.gcp_spacing_x) →
        values.count (P.img_size_x - 1) = 1) ∧
      ((∃ k : Nat, P.img_size_x - 1 = (k : Int) * P.gcp_spacing_x) →
        values.count (P.img_size_x - 1) = 2 ∧
        ∀ (timestamps_size : Nat) (y : Int) (lon lat : R),
          0 < P.gcp_spacing_y → 0 ≤ y → y < P.img_size_y →
          (y % P.gcp_spacing_y = 0 ∨ y + 1 = (timestamps_size : Int)) →
          P.get_position (P.img_size_x - 1) y = some ⟨lon, lat⟩ →
          ∃ pre post : List (GCP R), compute_gcps P timestamps_size
            = .ok (pre ++ [⟨P.img_size_x - 1, y, lon, lat⟩, ⟨P.img_size_x - 1, y, lon, lat⟩]
                ++ post)) := by
  have hv := column_values_eq P hx hr
  have hmem : ∀ x : Int,
      x ∈ (List.range (ceil_div P.img_size_x P.gcp_spacing_x).toNat).map
        (fun k : Nat => (k : Int) * P.gcp_spacing_x)
      ↔ ∃ k : Nat, x = (k : Int) * P.gcp_spacing_x ∧ x < P.img_size_x := by
    intro x
    constructor
    · intro h
      obtain ⟨k, hk, rfl⟩ := List.mem_map.mp h
      exact ⟨k, rfl, (stride_lt_iff _ _ hx k).mp (List.mem_range.mp hk)⟩
    · rintro ⟨k, rfl, hk⟩
      exact List.mem_map.mpr ⟨k, List.mem_range.mpr ((stride_lt_iff _ _ hx k).mpr hk), rfl⟩
  refine ⟨_, _, hv, rfl, rfl, hmem, strides_strict _ hx _, ?_, ?_, ?_⟩
  · have hc := ceil_div_nonneg P.img_size_x P.gcp_spacing_x hx hw
    rw [stride_values_length]
    push_cast
    rw [Int.toNat_of_nonneg hc]
  · intro hk
    have hnot : P.img_size_x - 1 ∉ (List.range (ceil_div P.img_size_x P.gcp_spacing_x).toNat).map
        (fun k : Nat => (k : Int) * P.gcp_spacing_x) := by
      intro h
      obtain ⟨k, e, _⟩ := (hmem _).mp h
      exact hk ⟨k, e⟩
    unfold stride_values
    rw [List.count_append, List.count_eq_zero.mpr hnot]
    simp
  · rintro ⟨k, hk⟩
    have hd := stride_values_duplicate P.img_size_x P.gcp_spacing_x hx k hk
    constructor
    · rw [hd, List.count_append]
      have hnot : P.img_size_x - 1 ∉ (List.range k).map (fun i : Nat => (i : Int) * P.gcp_spacing_x) := by
        intro h
        obtain ⟨i, hi, e⟩ := List.mem_map.mp h
        have hi' : (i : Int) < k := by exact_mod_cast List.mem_range.mp hi
        rw [hk] at e
        nlinarith
      rw [List.count_eq_zero.mpr hnot]
      simp
    · intro ts y lon lat hy h0 h1 hsel hp
      obtain ⟨j, rfl⟩ := Int.eq_ofNat_of_zero_le h0
      have hs : row_selected P ts (j : Int) = true :=
        row_selected_of P ts _ hy (by omega) hsel
      obtain ⟨post, hpost⟩ := gcps_after_extend P ts
        (stride_values P.img_size_x P.gcp_spacing_x) (j + 1) P.img_size_y.toNat (by omega)
      refine ⟨gcps_after P ts (stride_values P.img_size_x P.gcp_spacing_x) j
        ++ ((List.range k).map (fun i : Nat => (i : Int) * P.gcp_spacing_x)).filterMap
            (gcp_at P (j : Int)), post, ?_⟩
      rw [compute_gcps_eq P ts hv hy, hpost, gcps_after, row_gcps_selected P ts _ hs,
        hd, List.filterMap_append]
      simp [List.filterMap_cons, gcp_at, hp]

/-- Witness of `column_positions`: width 5 and column spacing 2 give the
positions 0, 2, 4, 4; `5 - 1` is the stride `2 * 2`, occurs twice, and the
mappable pixel `(4, 0)` of the selected row 0 is emitted twice in a row. -/
theorem column_positions_witness :
    (0 < (2 : Int) ∧ (0 : Int) ≤ 5 ∧
      strides_in_int_range (all_mappable (fun n : Int => n) 5 3 2 1) ∧
      (5 : Int) - 1 = ((2 : Nat) : Int) * 2 ∧
      0 < (1 : Int) ∧ (0 : Int) ≤ 0 ∧ (0 : Int) < 3 ∧
      ((0 : Int) % 1 = 0 ∨ (0 : Int) + 1 = ((3 : Nat) : Int)) ∧
      (all_mappable (fun n : Int => n) 5 3 2 1).get_position (5 - 1) 0 = some ⟨4, 0⟩) ∧
    ∃ strides values : List Int,
      column_values (all_mappable (fun n : Int => n) 5 3 2 1) = some values ∧
      values = strides ++ [5 - 1] ∧
      strides = (List.range (ceil_div 5 2).toNat).map (fun k : Nat => (k : Int) * 2) ∧
      (∀ x : Int, x ∈ strides ↔ ∃ k : Nat, x = (k : Int) * 2 ∧ x < 5) ∧
      strides.Pairwise (· < ·) ∧
      (values.length : Int) = ceil_div 5 2 + 1 ∧
      values.count (5 - 1) = 2 ∧
      ∃ pre post : List (GCP Int),
        compute_gcps (all_mappable (fun n : Int => n) 5 3 2 1) 3
          = .ok (pre ++ [⟨5 - 1, 0, 4, 0⟩, ⟨5 - 1, 0, 4, 0⟩] ++ post) :=
  match column_positions (all_mappable (fun n : Int => n) 5 3 2 1) (by decide) (by decide)
    (by decide) with
  | ⟨strides, values, h1, h2, h3, h4, h5, h6, _, h7⟩ =>
    ⟨⟨by decide, by decide, by decide, by decide, by decide, by decide, by decide,
        by decide, rfl⟩,
      strides, values, h1, h2, h3, h4, h5, h6, (h7 ⟨2, by decide⟩).1,
      (h7 ⟨2, by decide⟩).2 3 0 4 0 (by decide) (by decide) (by decide) (by decide) rfl⟩

/-! ## The concrete 5 x 3 scenario (claim C8) -/

/-- C8: on the 5 x 3 image with column spacing 2 and row spacing 1 on which
`get_position (x, y)` is `(x, y)` everywhere, for any number of timestamps,
`compute_gcps` returns exactly the 12 ground control points at `x = 0, 2, 4, 4`
of the rows `y = 0, 1, 2`, in that order (`c` is the conversion of a pixel index
to a coordinate value). -/
theorem scenario_5x3 (c : Int → R) (timestamps_size : Nat) :
    compute_gcps (all_mappable c 5 3 2 1) timestamps_size
      = .ok [⟨0, 0, c 0, c 0⟩, ⟨2, 0, c 2, c 0⟩, ⟨4, 0, c 4, c 0⟩, ⟨4, 0, c 4, c 0⟩,
             ⟨0, 1, c 0, c 1⟩, ⟨2, 1, c 2, c 1⟩, ⟨4, 1, c 4, c 1⟩, ⟨4, 1, c 4, c 1⟩,
             ⟨0, 2, c 0, c 2⟩, ⟨2, 2, c 2, c 2⟩, ⟨4, 2, c 4, c 2⟩, ⟨4, 2, c 4, c 2⟩] :=
  rfl

/-! ## Nothing mappable (claim C9) -/

/-- C9: for positive spacings and stride arithmetic within `int` (any image
extents and number of timestamps), if every `get_position` query of the call is
unmappable then `compute_gcps` returns, and returns the empty sequence. -/
theorem all_unmappable_empty (P : SatelliteProjection R) (timestamps_size : Nat)
    (hx : 0 < P.gcp_spacing_x) (hy : 0 < P.gcp_spacing_y) (hr : strides_in_int_range P)
    (hnone : ∀ x y, queried P timestamps_size x y → P.get_position x y = none) :
    compute_gcps P timestamps_size = .ok [] := by
  have hv := column_values_eq P hx hr
  rw [compute_gcps_eq P timestamps_size hv hy, gcps_after_eq_filterMap]
  congr 1
  rw [List.filterMap_eq_nil_iff]
  intro q hq
  have h := hnone q.1 q.2 ((queried_iff P timestamps_size hv hy _ _).mpr hq)
  simp [gcp_at, h]

/-- Witness of `all_unmappable_empty`: a 5 x 3 image without any mappable
pixel. -/
theorem all_unmappable_empty_witness :
    (0 < (none_mappable 5 3 2 1).gcp_spacing_x ∧ 0 < (none_mappable 5 3 2 1).gcp_spacing_y ∧
      strides_in_int_range (none_mappable 5 3 2 1) ∧
      ∀ x y, (none_mappable 5 3 2 1).get_position x y = none) ∧
    compute_gcps (none_mappable 5 3 2 1) 3 = .ok [] :=
  ⟨⟨by decide, by decide, by decide, fun _ _ => rfl⟩,
    all_unmappable_empty (none_mappable 5 3 2 1) 3 (by decide) (by decide) (by decide)
      (fun _ _ _ => rfl)⟩

/-! ## An image without rows (claim C10) -/

/-- C10: for positive spacings and stride arithmetic within `int`, if
`img_size_y = 0` (any number of timestamps and `get_position`) no row is
visited: `get_position` is never queried and `compute_gcps` returns the empty
sequence. -/
theorem zero_height_empty (P : SatelliteProjection R) (timestamps_size : Nat)
    (hx : 0 < P.gcp_spacing_x) (hy : 0 < P.gcp_spacing_y) (hr : strides_in_int_range P)
    (hh : P.img_size_y = 0) :
    locate_queries P timestamps_size = .ok [] ∧ compute_gcps P timestamps_size = .ok [] := by
  have hv := column_values_eq P hx hr
  rw [locate_queries_eq P timestamps_size hv hy, compute_gcps_eq P timestamps_size hv hy, hh]
  exact ⟨rfl, rfl⟩

/-- Witness of `zero_height_empty`: a 5 x 0 image on which every pixel would be
mappable. -/
theorem zero_height_empty_witness :
    (0 < (2 : Int) ∧ 0 < (1 : Int) ∧
      strides_in_int_range (all_mappable (fun n : Int => n) 5 0 2 1) ∧
      (all_mappable (fun n : Int => n) 5 0 2 1).img_size_y = 0) ∧
    (locate_queries (all_mappable (fun n : Int => n) 5 0 2 1) 4 = .ok [] ∧
      compute_gcps (all_mappable (fun n : Int => n) 5 0 2 1) 4 = .ok []) :=
  ⟨by decide, zero_height_empty (all_mappable (fun n : Int => n) 5 0 2 1) 4
    (by decide) (by decide) (by decide) rfl⟩

/-! ## An empty timestamp sequence (claim C11) -/

/-- C12: the code departs from the claim on the 0 x 1 image with unit spacings
and one timestamp on which `get_position` succeeds everywhere: the stride loop
of line 16 makes no iteration, but line 18 still appends `img_size_x - 1 = -1`,
so the inner loop runs once on row 0, `get_position` is queried at the pixel
`(-1, 0)` outside the image, and its ground control point is returned. -/
theorem zero_width_samples_column_minus_one :
    (0 < (1 : Int)) ∧
    (all_mappable (fun n : Int => n) 0 1 1 1).img_size_x = 0 ∧
    column_loop 1 0 1 0 [] = some [] ∧
    column_values (all_mappable (fun n : Int => n) 0 1 1 1) = some [-1] ∧
    locate_queries (all_mappable (fun n : Int => n) 0 1 1 1) 1 = .ok [(-1, 0)] ∧
    compute_gcps (all_mappable (fun n : Int => n) 0 1 1 1) 1 = .ok [⟨-1, 0, -1, 0⟩] :=
  ⟨by decide, rfl, rfl, rfl, rfl, rfl⟩

/-! ## Determinism (claim C13) -/

theorem row_selected_congr (P Q : SatelliteProjection R) (ts : Nat) (y : Int)
    (hsy : P.gcp_spacing_y = Q.gcp_spacing_y) :
    row_selected P ts y = row_selected Q ts y := by
  unfold row_selected
  rw [hsy]

theorem loop_body_congr (P Q : SatelliteProjection R) (ts : Nat) (y x : Int)
    (st : ScanState R) (hsy : P.gcp_spacing_y = Q.gcp_spacing_y)
    (hp : P.get_position x y = Q.get_position x y) :
    loop_body P ts y x st = loop_body Q ts y x st := by
  unfold loop_body
  rw [row_selected_congr P Q ts y hsy, hsy, hp]

theorem column_pass_congr (P Q : SatelliteProjection R) (ts : Nat) (y : Int)
    (hsy : P.gcp_spacing_y = Q.gcp_spacing_y) :
    ∀ (xs : List Int) (st : ScanState R),
      (∀ x ∈ xs, P.get_position x y = Q.get_position x y) →
      column_pass P ts y xs st = column_pass Q ts y xs st := by
  intro xs
  induction xs with
  | nil => intro st _; rfl
  | cons a xs ih =>
    intro st h
    unfold column_pass
    rw [loop_body_congr P Q ts y a st hsy (h a (List.mem_cons_self _ _))]
    cases loop_body Q ts y a st with
    | error e => rfl
    | ok st' => exact ih st' (fun x hx => h x (List.mem_cons_of_mem _ hx))

theorem row_loop_congr (P Q : SatelliteProjection R) (ts : Nat) (values : List Int)
    (hsy : P.gcp_spacing_y = Q.gcp_spacing_y) :
    ∀ (n : Nat) (y : Int) (st : ScanState R),
      (∀ x ∈ values, ∀ y' : Int, y ≤ y' → y' < y + n →
        P.get_position x y' = Q.get_position x y') →
      row_loop P ts values n y st = row_loop Q ts values n y st := by
  intro n
  induction n with
  | zero => intro y st _; rfl
  | succ n ih =>
    intro y st h
    unfold row_loop
    rw [column_pass_congr P Q ts y hsy values st
      (fun x hx => h x hx y (le_refl y) (by push_cast; omega))]
    cases column_pass Q ts y values st with
    | error e => rfl
    | ok st' =>
      exact ih (y + 1) st' (fun x hx y' h1 h2 => h x hx y' (by omega) (by push_cast; omega))

theorem scan_congr (P Q : SatelliteProjection R) (ts : Nat)
    (hw : P.img_size_x = Q.img_size_x) (hh : P.img_size_y = Q.img_size_y)
    (hsx : P.gcp_spacing_x = Q.gcp_spacing_x) (hsy : P.gcp_spacing_y = Q.gcp_spacing_y)
    (hp : ∀ values, column_values P = some values → ∀ x ∈ values, ∀ y : Int,
      0 ≤ y → y < P.img_size_y → P.get_position x y = Q.get_position x y) :
    scan P ts = scan Q ts := by
  have hv : column_values Q = column_values P := by
    unfold column_values
    rw [hw, hsx]
  unfold scan
  rw [hv, ← hh]
  cases hc : column_values P with
  | none => rfl
  | some values =>
    exact row_loop_congr P Q ts values hsy _ 0 _
      (fun x hx y h1 h2 => hp values hc x hx y h1 (by omega))

/-- C13: `compute_gcps` is a function of its inputs: two calls with the same
image extents, spacings and number of timestamps, and with `get_position`
functions that return the same answer at every pixel of the sampling grid
(column sample positions times rows `0 ≤ y < img_size_y`), make the same
`get_position` queries in the same order and return the same sequence (or fail
alike); in particular two calls with identical inputs return identical
sequences. -/
theorem compute_gcps_deterministic (P Q : SatelliteProjection R) (timestamps_size : Nat)
    (hw : P.img_size_x = Q.img_size_x) (hh : P.img_size_y = Q.img_size_y)
    (hsx : P.gcp_spacing_x = Q.gcp_spacing_x) (hsy : P.gcp_spacing_y = Q.gcp_spacing_y)
    (hp : ∀ values, column_values P = some values → ∀ x ∈ values, ∀ y : Int,
      0 ≤ y → y < P.img_size_y → P.get_position x y = Q.get_position x y) :
    compute_gcps P timestamps_size = compute_gcps Q timestamps_size ∧
    locate_queries P timestamps_size = locate_queries Q timestamps_size := by
  unfold compute_gcps locate_queries
  rw [scan_congr P Q timestamps_size hw hh hsx hsy hp]
  exact ⟨rfl, rfl⟩

/-- Witness of `compute_gcps_deterministic`: `carry_example` and a second
projection on the same image whose `get_position` differs only outside the
sampling grid. -/
theorem compute_gcps_deterministic_witness :
    (carry_example.img_size_x = carry_example_off_grid.img_size_x ∧
      carry_example.img_size_y = carry_example_off_grid.img_size_y ∧
      carry_example.gcp_spacing_x = carry_example_off_grid.gcp_spacing_x ∧
      carry_example.gcp_spacing_y = carry_example_off_grid.gcp_spacing_y ∧
      column_values carry_example = some [0, 1, 1] ∧
      ∀ x ∈ [(0 : Int), 1, 1], ∀ y : Int,
        carry_example.get_position x y = carry_example_off_grid.get_position x y) ∧
    (compute_gcps carry_example 3 = compute_gcps carry_example_off_grid 3 ∧
      locate_queries carry_example 3 = locate_queries carry_example_off_grid 3) :=
  have hp : ∀ x ∈ [(0 : Int), 1, 1], ∀ y : Int,
      carry_example.get_position x y = carry_example_off_grid.get_position x y := by
    intro x hx y
    have h7 : x ≠ 7 := by
      simp only [List.mem_cons, List.mem_singleton, List.not_mem_nil, or_false] at hx
      omega
    simp [carry_example, carry_example_off_grid, h7]
  ⟨⟨rfl, rfl, rfl, rfl, rfl, hp⟩,
    compute_gcps_deterministic carry_example carry_example_off_grid 3 rfl rfl rfl rfl
      (fun values hv x hx y _ _ => by
        obtain rfl : [0, 1, 1] = values := Option.some.inj hv
        exact hp x hx y)⟩

/-! ## The carry flag as a state machine (claim C14) -/

/-- One execution of the loop body, for a non-zero row spacing. -/
theorem loop_body_step (P : SatelliteProjection R) (ts : Nat) (y x : Int)
    (st : ScanState R) (hy : P.gcp_spacing_y ≠ 0) :
    ∃ st', loop_body P ts y x st = .ok st' ∧
      (((row_selected P ts y || st.last_was_invalid) = true ∧
          st'.queried = st.queried ++ [(x, y)] ∧
          st'.last_was_invalid = (P.get_position x y).isNone) ∨
        ((row_selected P ts y || st.last_was_invalid) = false ∧
          st'.queried = st.queried ∧ st'.last_was_invalid = false)) := by
  unfold loop_body
  rw [if_neg hy]
  by_cases hc : (row_selected P ts y || st.last_was_invalid) = true
  · rw [if_pos hc]
    cases hg : P.get_position x y with
    | none => exact ⟨_, rfl, Or.inl ⟨hc, rfl, rfl⟩⟩
    | some position => exact ⟨_, rfl, Or.inl ⟨hc, rfl, rfl⟩⟩
  · rw [if_neg hc]
    exact ⟨_, rfl, Or.inr ⟨by simpa using hc, rfl, rfl⟩⟩

theorem run_steps_append (P : SatelliteProjection R) (ts : Nat) :
    ∀ (ps qs : List (Int × Int)) (st st' : ScanState R),
      run_steps P ts ps st = .ok st' →
      run_steps P ts (ps ++ qs) st = run_steps P ts qs st' := by
  intro ps
  induction ps with
  | nil =>
    intro qs st st' h
    cases h
    rfl
  | cons p ps ih =>
    intro qs st st' h
    simp only [List.cons_append, run_steps] at h ⊢
    cases hb : loop_body P ts p.2 p.1 st with
    | error e => rw [hb] at h; cases h
    | ok st₁ =>
      rw [hb] at h
      exact ih qs st₁ st' h

theorem run_steps_total (P : SatelliteProjection R) (ts : Nat)
    (hy : P.gcp_spacing_y ≠ 0) :
    ∀ (ps : List (Int × Int)) (st : ScanState R), ∃ st', run_steps P ts ps st = .ok st' := by
  intro ps
  induction ps with
  | nil => intro st; exact ⟨st, rfl⟩
  | cons p ps ih =>
    intro st
    obtain ⟨st₁, h₁, _⟩ := loop_body_step P ts p.2 p.1 st hy
    obtain ⟨st₂, h₂⟩ := ih st₁
    exact ⟨st₂, by simp only [run_steps, h₁, h₂]⟩

theorem column_pass_eq_run_steps (P : SatelliteProjection R) (ts : Nat) (y : Int) :
    ∀ (xs : List Int) (st : ScanState R),
      column_pass P ts y xs st = run_steps P ts (xs.map (fun x => (x, y))) st := by
  intro xs
  induction xs with
  | nil => intro st; rfl
  | cons a xs ih =>
    intro st
    simp only [column_pass, List.map_cons, run_steps]
    cases loop_body P ts y a st with
    | error e => rfl
    | ok st' => exact ih st'

/-- Running the loop body along the scan positions of the first `n` rows gives
the state after `n` rows. -/
theorem run_steps_scan_positions (P : SatelliteProjection R) (ts : Nat) (values : List Int)
    (hy : P.gcp_spacing_y ≠ 0) :
    ∀ n : Nat, run_steps P ts (scan_positions values n) (ScanState.init R)
      = .ok (state_after P ts values n) := by
  intro n
  induction n with
  | zero => rfl
  | succ n ih =>
    rw [scan_positions, run_steps_append P ts _ _ _ _ ih, ← column_pass_eq_run_steps,
      column_pass_eq P ts _ hy]
    rfl

theorem scan_positions_mem (values : List Int) (p : Int × Int) :
    ∀ n : Nat, p ∈ scan_positions values n → p.1 ∈ values ∧ 0 ≤ p.2 ∧ p.2 < (n : Int) := by
  intro n
  induction n with
  | zero => intro h; simp [scan_positions] at h
  | succ n ih =>
    intro h
    rw [scan_positions, List.mem_append] at h
    rcases h with h | h
    · have := ih h
      exact ⟨this.1, this.2.1, by push_cast; omega⟩
    · obtain ⟨x, hx, rfl⟩ := List.mem_map.mp h
      exact ⟨hx, by simp, by push_cast; omega⟩

/-- The step taken at the scan position of index `k`. -/
theorem state_at_step (P : SatelliteProjection R) (ts : Nat) (hy : P.gcp_spacing_y ≠ 0)
    (ps : List (Int × Int)) (k : Nat) (p : Int × Int) (hp : ps[k]? = some p) :
    ∃ st st', state_at P ts ps k = .ok st ∧ state_at P ts ps (k + 1) = .ok st' ∧
      loop_body P ts p.2 p.1 st = .ok st' := by
  obtain ⟨st, hst⟩ := run_steps_total P ts hy (ps.take k) (ScanState.init R)
  obtain ⟨st', hst', _⟩ := loop_body_step P ts p.2 p.1 st hy
  refine ⟨st, st', hst, ?_, hst'⟩
  unfold state_at
  rw [List.take_succ, hp, run_steps_append P ts _ _ _ _ hst]
  simp only [Option.toList, run_steps, hst']

theorem attempted_at_iff (P : SatelliteProjection R) (ts : Nat) (hy : P.gcp_spacing_y ≠ 0)
    (ps : List (Int × Int)) (k : Nat) (p : Int × Int) (hp : ps[k]? = some p) :
    attempted_at P ts ps k ↔ (row_selected P ts p.2 = true ∨ flag_at P ts ps k) := by
  obtain ⟨st, st', h1, h2, h3⟩ := state_at_step P ts hy ps k p hp
  obtain ⟨st₁, hb, hcases⟩ := loop_body_step P ts p.2 p.1 st hy
  rw [h3] at hb
  cases hb
  constructor
  · rintro ⟨s, s', q, hq, hs, hs', hqs⟩
    rw [hp] at hq; cases hq
    rw [h1] at hs; cases hs
    rw [h2] at hs'; cases hs'
    rcases hcases with ⟨hc, _, _⟩ | ⟨_, hq', _⟩
    · rcases Bool.or_eq_true _ _ ▸ hc with h | h
      · exact Or.inl h
      · exact Or.inr ⟨st, h1, h⟩
    · rw [hq'] at hqs
      have := congrArg List.length hqs
      simp at this
  · intro h
    have hc : (row_selected P ts p.2 || st.last_was_invalid) = true := by
      rcases h with h | ⟨s, hs, hf⟩
      · rw [h]; rfl
      · rw [h1] at hs; cases hs
        rw [hf]; simp
    rcases hcases with ⟨_, hq', _⟩ | ⟨hc', _, _⟩
    · exact ⟨st, st', p, hp, h1, h2, hq'⟩
    · rw [hc] at hc'; cases hc'

theorem flag_at_succ_iff (P : SatelliteProjection R) (ts : Nat) (hy : P.gcp_spacing_y ≠ 0)
    (ps : List (Int × Int)) (k : Nat) (p : Int × Int) (hp : ps[k]? = some p) :
    flag_at P ts ps (k + 1) ↔ (attempted_at P ts ps k ∧ P.get_position p.1 p.2 = none) := by
  obtain ⟨st, st', h1, h2, h3⟩ := state_at_step P ts hy ps k p hp
  obtain ⟨st₁, hb, hcases⟩ := loop_body_step P ts p.2 p.1 st hy
  rw [h3] at hb
  cases hb
  constructor
  · rintro ⟨s, hs, hf⟩
    rw [h2] at hs; cases hs
    rcases hcases with ⟨_, hq', hf'⟩ | ⟨_, _, hf'⟩
    · refine ⟨⟨st, st', p, hp, h1, h2, hq'⟩, ?_⟩
      rw [hf] at hf'
      exact Option.isNone_iff_eq_none.mp hf'.symm
    · rw [hf] at hf'; cases hf'
  · rintro ⟨⟨s, s', q, hq, hs, hs', hqs⟩, hn⟩
    rw [hp] at hq; cases hq
    rw [h1] at hs; cases hs
    rw [h2] at hs'; cases hs'
    rcases hcases with ⟨_, _, hf'⟩ | ⟨_, hq', _⟩
    · exact ⟨st', h2, by rw [hf', hn]; rfl⟩
    · rw [hq'] at hqs
      have := congrArg List.length hqs
      simp at this

theorem not_flag_at_zero (P : SatelliteProjection R) (ts : Nat) (ps : List (Int × Int)) :
    ¬ flag_at P ts ps 0 := by
  rintro ⟨st, hs, hf⟩
  simp only [state_at, List.take_zero, run_steps] at hs
  cases hs
  simp [ScanState.init] at hf

theorem flag_at_iff_prev (P : SatelliteProjection R) (ts : Nat) (hy : P.gcp_spacing_y ≠ 0)
    (ps : List (Int × Int)) (k : Nat) (hk : k < ps.length) :
    flag_at P ts ps k ↔ ∃ (j : Nat) (q : Int × Int), j + 1 = k ∧ ps[j]? = some q ∧
      attempted_at P ts ps j ∧ P.get_position q.1 q.2 = none := by
  cases k with
  | zero =>
    constructor
    · intro h; exact absurd h (not_flag_at_zero P ts ps)
    · rintro ⟨j, _, hj, _⟩; omega
  | succ j =>
    have hq : ps[j]? = some ps[j] := List.getElem?_eq_getElem (by omega)
    rw [flag_at_succ_iff P ts hy ps j _ hq]
    constructor
    · rintro ⟨ha, hn⟩
      exact ⟨j, _, rfl, hq, ha, hn⟩
    · rintro ⟨i, q, hi, hq', ha, hn⟩
      obtain rfl : i = j := by omega
      rw [hq] at hq'
      cases hq'
      exact ⟨ha, hn⟩

/-- C14: for positive spacings, with stride arithmetic, image height and number
of timestamps within the range of `int`, the call returns and the scan is the
run of a state machine over the scan positions, enumerated by rows
`0 … img_size_y - 1` and within a row by the column sample positions in list
order.  The flag is
not set before the first position; the position of index `k`, at pixel
`(x, y)`, is attempted exactly when `y % gcp_spacing_y = 0`, or
`y + 1 = timestamps.size()`, or the position of index `k - 1` was attempted and
is unmappable; and the flag is set after position `k` exactly when that
position was attempted and is unmappable, so it is clear after every skipped
and after every mappable position. -/
theorem carry_flag_state_machine (P : SatelliteProjection R) (timestamps_size : Nat)
    (hx : 0 < P.gcp_spacing_x) (hy : 0 < P.gcp_spacing_y)
    (hr : strides_in_int_range P) (hh : P.img_size_y ≤ int_max)
    (hts : (timestamps_size : Int) ≤ int_max) :
    ∃ (values : List Int) (ps : List (Int × Int)),
      column_values P = some values ∧
      ps = scan_positions values P.img_size_y.toNat ∧
      scan P timestamps_size = state_at P timestamps_size ps ps.length ∧
      (∀ k : Nat, ∃ st, state_at P timestamps_size ps k = .ok st) ∧
      ¬ flag_at P timestamps_size ps 0 ∧
      ∀ (k : Nat) (p : Int × Int), ps[k]? = some p →
        (attempted_at P timestamps_size ps k ↔
          (p.2 % P.gcp_spacing_y = 0 ∨ p.2 + 1 = (timestamps_size : Int) ∨
            ∃ (j : Nat) (q : Int × Int), j + 1 = k ∧ ps[j]? = some q ∧
              attempted_at P timestamps_size ps j ∧ P.get_position q.1 q.2 = none)) ∧
        (flag_at P timestamps_size ps (k + 1) ↔
          (attempted_at P timestamps_size ps k ∧ P.get_position p.1 p.2 = none)) := by
  have hy' : P.gcp_spacing_y ≠ 0 := by omega
  have hv := column_values_eq P hx hr
  refine ⟨_, _, hv, rfl, ?_, ?_, not_flag_at_zero P timestamps_size _, ?_⟩
  · rw [scan_eq P timestamps_size hv hy, state_at, List.take_length,
      run_steps_scan_positions P timestamps_size _ hy']
  · intro k
    exact run_steps_total P timestamps_size hy' _ _
  · intro k p hp
    refine ⟨?_, flag_at_succ_iff P timestamps_size hy' _ k p hp⟩
    obtain ⟨hk, hpk⟩ := List.getElem?_eq_some.mp hp
    have hmem : p ∈ scan_positions (stride_values P.img_size_x P.gcp_spacing_x)
        P.img_size_y.toNat := by
      rw [← hpk]; exact List.getElem_mem _
    have hm := scan_positions_mem _ p _ hmem
    rw [attempted_at_iff P timestamps_size hy' _ k p hp,
      row_selected_iff P timestamps_size p.2 hy hm.2.1 (by omega) hts,
      flag_at_iff_prev P timestamps_size hy' _ k hk, or_assoc]

/-- Witness of `carry_flag_state_machine` on `carry_example` with 3 timestamps:
position 2, the pixel `(1, 0)`, is attempted on the selected row 0 and is
unmappable, so the flag is set and position 3, the pixel `(0, 1)` of the
unselected row 1, is attempted; it is mappable, so position 4 is skipped. -/
theorem carry_flag_state_machine_witness :
    (0 < carry_example.gcp_spacing_x ∧ 0 < carry_example.gcp_spacing_y ∧
      strides_in_int_range carry_example ∧ carry_example.img_size_y ≤ int_max ∧
      ((3 : Nat) : Int) ≤ int_max ∧
      column_values carry_example = some [0, 1, 1] ∧
      scan_positions [0, 1, 1] carry_example.img_size_y.toNat
        = [(0, 0), (1, 0), (1, 0), (0, 1), (1, 1), (1, 1), (0, 2), (1, 2), (1, 2)] ∧
      carry_example.get_position 1 0 = none ∧
      carry_example.get_position 0 1 = some ⟨0, 1⟩) ∧
    attempted_at carry_example 3 (scan_positions [0, 1, 1] 3) 2 ∧
    flag_at carry_example 3 (scan_positions [0, 1, 1] 3) 3 ∧
    attempted_at carry_example 3 (scan_positions [0, 1, 1] 3) 3 ∧
    ¬ flag_at carry_example 3 (scan_positions [0, 1, 1] 3) 4 ∧
    ¬ attempted_at carry_example 3 (scan_positions [0, 1, 1] 3) 4 := by
  obtain ⟨values, ps, hv, hps, _, _, _, h⟩ :=
    carry_flag_state_machine carry_example 3 (by decide) (by decide) (by decide)
      (by decide) (by decide)
  obtain rfl : [0, 1, 1] = values := Option.some.inj hv
  obtain rfl : ps = scan_positions [0, 1, 1] 3 := hps
  have a2 : attempted_at carry_example 3 (scan_positions [0, 1, 1] 3) 2 :=
    (h 2 (1, 0) rfl).1.mpr (Or.inl (by decide))
  have f3 : flag_at carry_example 3 (scan_positions [0, 1, 1] 3) 3 :=
    (h 2 (1, 0) rfl).2.mpr ⟨a2, rfl⟩
  have a3 : attempted_at carry_example 3 (scan_positions [0, 1, 1] 3) 3 :=
    (h 3 (0, 1) rfl).1.mpr (Or.inr (Or.inr ⟨2, (1, 0), rfl, rfl, a2, rfl⟩))
  have f4 : ¬ flag_at carry_example 3 (scan_positions [0, 1, 1] 3) 4 :=
    fun hf => absurd ((h 3 (0, 1) rfl).2.mp hf).2 (by decide)
  have a4 : ¬ attempted_at carry_example 3 (scan_positions [0, 1, 1] 3) 4 := by
    intro ha
    rcases (h 4 (1, 1) rfl).1.mp ha with h1 | h1 | ⟨j, q, hj, hq, _, hn⟩
    · exact absurd h1 (by decide)
    · exact absurd h1 (by decide)
    · obtain rfl : j = 3 := by omega
      obtain rfl : ((0 : Int), (1 : Int)) = q := Option.some.inj hq
      exact absurd hn (by decide)
  exact ⟨⟨by decide, by decide, by decide, by decide, by decide, rfl, rfl, rfl, rfl⟩,
    a2, f3, a3, f4, a4⟩

/-! ## The result is the mappable part of the query trace (claim C15) -/

theorem row_queries_sublist (P : SatelliteProjection R) (ts : Nat) (y : Int) :
    ∀ (xs : List Int) (f : Bool),
      (row_queries P ts y xs f).Sublist (xs.map (fun x => (x, y))) := by
  intro xs
  induction xs with
  | nil => intro f; exact List.Sublist.refl _
  | cons a xs ih =>
    intro f
    unfold row_queries
    split
    · exact (ih _).cons₂ _
    · exact (ih _).cons _

theorem queries_after_sublist (P : SatelliteProjection R) (ts : Nat) (values : List Int) :
    ∀ n : Nat, (queries_after P ts values n).Sublist (scan_positions values n) := by
  intro n
  induction n with
  | zero => exact List.Sublist.refl _
  | succ n ih =>
    rw [queries_after, scan_positions]
    exact ih.append (row_queries_sublist P ts _ values _)

/-- C15: for positive spacings and stride arithmetic within `int` the call
returns; the pixels at which
`get_position` is queried are scan positions, listed in scan order, and the
result is exactly the list obtained from them by keeping, in order, one ground
control point `(x, y, lon, lat)` for every queried pixel that is mappable and
nothing for an unmappable one.  Hence every ground control point of the result
has `pixel_x` among the column sample positions, `0 ≤ pixel_y < img_size_y` and
carries the answer of `get_position` at its pixel. -/
theorem result_is_mappable_attempts (P : SatelliteProjection R) (timestamps_size : Nat)
    (hx : 0 < P.gcp_spacing_x) (hy : 0 < P.gcp_spacing_y) (hr : strides_in_int_range P) :
    ∃ (values : List Int) (queries : List (Int × Int)) (gcps : List (GCP R)),
      column_values P = some values ∧
      locate_queries P timestamps_size = .ok queries ∧
      compute_gcps P timestamps_size = .ok gcps ∧
      queries.Sublist (scan_positions values P.img_size_y.toNat) ∧
      gcps = queries.filterMap
        (fun q => (P.get_position q.1 q.2).map
          (fun position => (⟨q.1, q.2, position.lon, position.lat⟩ : GCP R))) ∧
      ∀ g ∈ gcps, g.x ∈ values ∧ 0 ≤ g.y ∧ g.y < P.img_size_y ∧
        (g.x, g.y) ∈ queries ∧ P.get_position g.x g.y = some ⟨g.lon, g.lat⟩ := by
  have hv := column_values_eq P hx hr
  refine ⟨_, _, _, hv, locate_queries_eq P timestamps_size hv hy,
    compute_gcps_eq P timestamps_size hv hy, queries_after_sublist P timestamps_size _ _,
    gcps_after_eq_filterMap P timestamps_size _ _, ?_⟩
  intro g hg
  have hg' := hg
  rw [gcps_after_eq_filterMap] at hg'
  obtain ⟨q, hq, hgq⟩ := List.mem_filterMap.mp hg'
  obtain ⟨k, hk, hgk⟩ := (gcps_after_mem P timestamps_size _ _ _).mp hg
  have hm := row_gcps_mem P timestamps_size _ _ _ g hgk
  have hxy : (g.x, g.y) = q := by
    unfold gcp_at at hgq
    cases hp : P.get_position q.1 q.2 with
    | none => rw [hp] at hgq; cases hgq
    | some position =>
      rw [hp] at hgq
      cases hgq
      rfl
  refine ⟨hm.2.1, by rw [hm.1]; omega, by rw [hm.1]; omega, hxy ▸ hq, ?_⟩
  rw [hm.1]
  exact hm.2.2

/-- Witness of `result_is_mappable_attempts` on `carry_example`. -/
theorem result_is_mappable_attempts_witness :
    (0 < carry_example.gcp_spacing_x ∧ 0 < carry_example.gcp_spacing_y ∧
      strides_in_int_range carry_example) ∧
    ∃ (values : List Int) (queries : List (Int × Int)) (gcps : List (GCP Int)),
      column_values carry_example = some values ∧
      locate_queries carry_example 3 = .ok queries ∧
      compute_gcps carry_example 3 = .ok gcps ∧
      queries.Sublist (scan_positions values carry_example.img_size_y.toNat) ∧
      gcps = queries.filterMap
        (fun q => (carry_example.get_position q.1 q.2).map
          (fun position => (⟨q.1, q.2, position.lon, position.lat⟩ : GCP Int))) ∧
      ∀ g ∈ gcps, g.x ∈ values ∧ 0 ≤ g.y ∧ g.y < carry_example.img_size_y ∧
        (g.x, g.y) ∈ queries ∧ carry_example.get_position g.x g.y = some ⟨g.lon, g.lat⟩ :=
  ⟨by decide, result_is_mappable_attempts carry_example 3 (by decide) (by decide)
    (by decide)⟩

/-! ## Unselected rows are skipped unless carried (claim C16) -/

/-- A row that ends with the flag set has attempted its last column position,
which is unmappable. -/
theorem row_flag_true_last (P : SatelliteProjection R) (ts : Nat) (y v : Int) :
    ∀ (pre : List Int) (f : Bool), row_flag P ts y (pre ++ [v]) f = true →
      (v, y) ∈ row_queries P ts y (pre ++ [v]) f ∧ P.get_position v y = none := by
  intro pre
  induction pre with
  | nil =>
    intro f h
    simp only [List.nil_append, row_flag, row_queries] at h ⊢
    split at h
    · rename_i hc
      rw [if_pos hc]
      exact ⟨List.mem_cons_self _ _, Option.isNone_iff_eq_none.mp h⟩
    · cases h
  | cons a pre ih =>
    intro f h
    simp only [List.cons_append, row_flag, row_queries] at h ⊢
    split at h
    · rename_i hc
      rw [if_pos hc]
      have := ih _ h
      exact ⟨List.mem_cons_of_mem _ this.1, this.2⟩
    · rename_i hc
      rw [if_neg hc]
      exact ih _ h

/-- A row that satisfies no row condition and is sampled follows a row whose
last column position was attempted and is unmappable. -/
theorem carried_of_queried (P : SatelliteProjection R) (ts : Nat)
    (hx : 0 < P.gcp_spacing_x) (hy : 0 < P.gcp_spacing_y)
    (hh : P.img_size_y ≤ int_max) (hts : (ts : Int) ≤ int_max) (x y : Int)
    (hns : ¬ (y % P.gcp_spacing_y = 0 ∨ y + 1 = (ts : Int)))
    (hq : queried P ts x y) :
    queried P ts (P.img_size_x - 1) (y - 1) ∧ P.get_position (P.img_size_x - 1) (y - 1) = none := by
  have hv := column_values_of_queried P ts hx x y hq
  rw [queried_iff P ts hv hy] at hq ⊢
  obtain ⟨k, hk, hqk⟩ := (queries_after_mem P ts _ _ _).mp hq
  obtain rfl : y = (k : Int) := (row_queries_mem P ts _ _ _ _ hqk).1
  have hsel : row_selected P ts (k : Int) = false :=
    row_unselected P ts (k : Int) hy (by omega) (by omega) hts hns
  have hf := flag_after_of_queried P ts _ k x hsel hqk
  cases k with
  | zero => simp [flag_after] at hf
  | succ j =>
    rw [flag_after] at hf
    have h := row_flag_true_last P ts (j : Int) (P.img_size_x - 1) _ _ hf
    have e : (((j + 1 : Nat) : Int) - 1) = (j : Int) := by push_cast; ring
    rw [e]
    exact ⟨(queries_after_mem P ts _ _ _).mpr ⟨j, by omega, h.1⟩, h.2⟩

/-- A ground control point of the result lies on a row on which its pixel was
queried. -/
theorem queried_of_emitted (P : SatelliteProjection R) (ts : Nat)
    (hx : 0 < P.gcp_spacing_x) (hy : 0 < P.gcp_spacing_y) (g : GCP R)
    (hg : emitted P ts g) :
    queried P ts g.x g.y ∧ 0 ≤ g.y ∧ g.y < P.img_size_y := by
  have hv := column_values_of_emitted P ts hx g hg
  rw [emitted_iff P ts hv hy] at hg
  rw [queried_iff P ts hv hy]
  obtain ⟨k, hk, hgk⟩ := (gcps_after_mem P ts _ _ _).mp hg
  have hy' := (row_gcps_mem P ts _ _ _ g hgk).1
  rw [row_gcps_eq_filterMap] at hgk
  obtain ⟨q, hq, hgq⟩ := List.mem_filterMap.mp hgk
  have hxy : (g.x, g.y) = q := by
    unfold gcp_at at hgq
    cases hp : P.get_position q.1 q.2 with
    | none => rw [hp] at hgq; cases hgq
    | some position =>
      rw [hp] at hgq
      cases hgq
      rfl
  rw [hxy]
  exact ⟨(queries_after_mem P ts _ _ _).mpr ⟨k, hk, hq⟩, by rw [hy']; omega, by rw [hy']; omega⟩

/-- C16: for positive spacings, with image height and number of timestamps
within the range of `int`, a row `y` with `y % gcp_spacing_y ≠ 0` and
`y + 1 ≠ timestamps.size()` is skipped entirely (no `get_position` query on the
row, no ground control point with `pixel_y = y`) unless the last column sample
position of row `y - 1` was attempted and is unmappable.  In particular, if
`get_position` is mappable at the last column position of every row, every
ground control point of the result lies on a row with
`y % gcp_spacing_y = 0` or `y + 1 = timestamps.size()`.  The call returns
whenever the stride arithmetic of lines 15-18 stays within `int`. -/
theorem unselected_row_skipped_unless_carried (P : SatelliteProjection R)
    (timestamps_size : Nat) (hx : 0 < P.gcp_spacing_x) (hy : 0 < P.gcp_spacing_y)
    (hh : P.img_size_y ≤ int_max) (hts : (timestamps_size : Int) ≤ int_max)
    (y : Int) (hns : ¬ (y % P.gcp_spacing_y = 0 ∨ y + 1 = (timestamps_size : Int))) :
    (strides_in_int_range P → ∃ gcps, compute_gcps P timestamps_size = .ok gcps) ∧
    (¬ (queried P timestamps_size (P.img_size_x - 1) (y - 1) ∧
          P.get_position (P.img_size_x - 1) (y - 1) = none) →
      (∀ x, ¬ queried P timestamps_size x y) ∧
      (∀ g, emitted P timestamps_size g → g.y ≠ y)) ∧
    ((∀ y' : Int, 0 ≤ y' → y' < P.img_size_y → P.get_position (P.img_size_x - 1) y' ≠ none) →
      ∀ g, emitted P timestamps_size g →
        (g.y % P.gcp_spacing_y = 0 ∨ g.y + 1 = (timestamps_size : Int))) := by
  refine ⟨fun hr => ⟨_, compute_gcps_eq P timestamps_size (column_values_eq P hx hr) hy⟩,
    ?_, ?_⟩
  · intro hnc
    refine ⟨fun x hq =>
      hnc (carried_of_queried P timestamps_size hx hy hh hts x y hns hq), ?_⟩
    intro g hg hgy
    have hq := (queried_of_emitted P timestamps_size hx hy g hg).1
    rw [hgy] at hq
    exact hnc (carried_of_queried P timestamps_size hx hy hh hts _ y hns hq)
  · intro hlast g hg
    by_contra hsel
    have hq := queried_of_emitted P timestamps_size hx hy g hg
    have hc := carried_of_queried P timestamps_size hx hy hh hts _ g.y hsel hq.1
    have hprev : queried P timestamps_size (P.img_size_x - 1) (g.y - 1) := hc.1
    have hv := column_values_of_emitted P timestamps_size hx g hg
    rw [queried_iff P timestamps_size hv hy] at hprev
    obtain ⟨k, hk, hqk⟩ := (queries_after_mem P timestamps_size _ _ _).mp hprev
    have hrow := (row_queries_mem P timestamps_size _ _ _ _ hqk).1
    simp only at hrow
    exact hlast (g.y - 1) (by omega) (by omega) hc.2

/-- Witness of `unselected_row_skipped_unless_carried`: row 1 of the 5 x 3 image
with column spacing 2 and row spacing 2 on which every pixel is mappable, with
4 timestamps, is skipped, and all ground control points lie on rows 0 and 2. -/
theorem unselected_row_skipped_unless_carried_witness :
    (0 < (2 : Int) ∧ (3 : Int) ≤ int_max ∧ ((4 : Nat) : Int) ≤ int_max ∧
      ¬ ((1 : Int) % 2 = 0 ∨ (1 : Int) + 1 = ((4 : Nat) : Int)) ∧
      strides_in_int_range (all_mappable (fun n : Int => n) 5 3 2 2) ∧
      (all_mappable (fun n : Int => n) 5 3 2 2).get_position (5 - 1) (1 - 1) = some ⟨4, 0⟩ ∧
      emitted (all_mappable (fun n : Int => n) 5 3 2 2) 4 ⟨0, 2, 0, 2⟩) ∧
    (∃ gcps, compute_gcps (all_mappable (fun n : Int => n) 5 3 2 2) 4 = .ok gcps) ∧
    ((∀ x, ¬ queried (all_mappable (fun n : Int => n) 5 3 2 2) 4 x 1) ∧
      (∀ g, emitted (all_mappable (fun n : Int => n) 5 3 2 2) 4 g → g.y ≠ 1)) ∧
    ((2 : Int) % 2 = 0 ∨ (2 : Int) + 1 = ((4 : Nat) : Int)) :=
  have he : emitted (all_mappable (fun n : Int => n) 5 3 2 2) 4 ⟨0, 2, 0, 2⟩ :=
    (emitted_of_eq (all_mappable (fun n : Int => n) 5 3 2 2) 4 _ rfl _).mpr (by decide)
  have h := unselected_row_skipped_unless_carried (all_mappable (fun n : Int => n) 5 3 2 2) 4
    (by decide) (by decide) (by decide) (by decide) 1 (by decide)
  ⟨⟨by decide, by decide, by decide, by decide, by decide, rfl, he⟩, h.1 (by decide),
    h.2.1 (fun hc => absurd hc.2 (by decide)),
    h.2.2 (fun _ _ _ hn => by cases hn) ⟨0, 2, 0, 2⟩ he⟩

/-! ## Totality and the bound on the work (claim C17) -/

/-- On a row that satisfies no row condition and is entered with the flag set,
the queried columns are a prefix of the column list in which only the last
element can be mappable, and the prefix is cut short only by a mappable
column. -/
theorem carried_row_prefix (P : SatelliteProjection R) (ts : Nat) (y : Int)
    (hsel : row_selected P ts y = false) :
    ∀ xs : List Int, ∃ n : Nat, n ≤ xs.length ∧
      row_queries P ts y xs true = (xs.take n).map (fun x => (x, y)) ∧
      row_gcps P ts y xs true = (xs.take n).filterMap (gcp_at P y) ∧
      (∀ x ∈ xs.take (n - 1), P.get_position x y = none) ∧
      (n < xs.length → ∃ x, (xs.take n).getLast? = some x ∧ P.get_position x y ≠ none) ∧
      (row_gcps P ts y xs true).length ≤ 1 := by
  intro xs
  induction xs with
  | nil => exact ⟨0, by simp [row_queries, row_gcps]⟩
  | cons a xs ih =>
    cases hg : P.get_position a y with
    | some position =>
      have hs := row_skipped P ts y hsel xs
      refine ⟨1, by simp, ?_, ?_, by simp, ?_, ?_⟩
      · simp [row_queries, hg, hs.1]
      · simp [row_gcps, hg, hs.2.1, gcp_at, List.filterMap_cons]
      · intro _
        exact ⟨a, by simp, by rw [hg]; exact Option.noConfusion⟩
      · simp [row_gcps, hg, hs.2.1]
    | none =>
      obtain ⟨n, hn, hq, hgc, hpre, hlast, hlen⟩ := ih
      refine ⟨n + 1, by simp; omega, ?_, ?_, ?_, ?_, ?_⟩
      · simp [row_queries, hg, hq]
      · simp [row_gcps, hg, hgc, gcp_at, List.filterMap_cons]
      · intro x hx
        cases n with
        | zero => simp at hx
        | succ m =>
          simp only [Nat.add_sub_cancel, List.take_succ_cons, List.mem_cons] at hx
          rcases hx with rfl | hx
          · exact hg
          · exact hpre x hx
      · intro hlt
        have hlt' : n < xs.length := by simpa using hlt
        obtain ⟨x, hx, hm⟩ := hlast hlt'
        refine ⟨x, ?_, hm⟩
        rw [List.take_succ_cons]
        cases ht : xs.take n with
        | nil => rw [ht] at hx; cases hx
        | cons b l => rw [ht] at hx; simpa [List.getLast?_cons_cons] using hx
      · simpa [row_gcps, hg] using hlen

theorem queries_after_filter_row (P : SatelliteProjection R) (ts : Nat) (values : List Int)
    (k : Nat) :
    ∀ n : Nat, k < n →
      (queries_after P ts values n).filter (fun q => q.2 = (k : Int))
        = row_queries P ts (k : Int) values (flag_after P ts values k) := by
  intro n
  induction n with
  | zero => intro h; omega
  | succ n ih =>
    intro h
    rw [queries_after, List.filter_append]
    by_cases e : k = n
    · subst e
      have h1 : (queries_after P ts values k).filter (fun q => q.2 = (k : Int)) = [] := by
        rw [List.filter_eq_nil_iff]
        intro q hq
        obtain ⟨j, hj, hqj⟩ := (queries_after_mem P ts values q k).mp hq
        have := (row_queries_mem P ts _ _ _ _ hqj).1
        simp only [decide_eq_true_eq]
        omega
      have h2 : (row_queries P ts (k : Int) values (flag_after P ts values k)).filter
          (fun q => q.2 = (k : Int))
          = row_queries P ts (k : Int) values (flag_after P ts values k) := by
        rw [List.filter_eq_self]
        intro q hq
        simpa using (row_queries_mem P ts _ _ _ _ hq).1
      rw [h1, h2, List.nil_append]
    · have h2 : (row_queries P ts (n : Int) values (flag_after P ts values n)).filter
          (fun q => q.2 = (k : Int)) = [] := by
        rw [List.filter_eq_nil_iff]
        intro q hq
        have := (row_queries_mem P ts _ _ _ _ hq).1
        simp only [decide_eq_true_eq]
        omega
      rw [ih (by omega), h2, List.append_nil]

theorem gcps_after_filter_row (P : SatelliteProjection R) (ts : Nat) (values : List Int)
    (k : Nat) :
    ∀ n : Nat, k < n →
      (gcps_after P ts values n).filter (fun g => g.y = (k : Int))
        = row_gcps P ts (k : Int) values (flag_after P ts values k) := by
  intro n
  induction n with
  | zero => intro h; omega
  | succ n ih =>
    intro h
    rw [gcps_after, List.filter_append]
    by_cases e : k = n
    · subst e
      have h1 : (gcps_after P ts values k).filter (fun g => g.y = (k : Int)) = [] := by
        rw [List.filter_eq_nil_iff]
        intro g hg
        obtain ⟨j, hj, hgj⟩ := (gcps_after_mem P ts values g k).mp hg
        have := (row_gcps_mem P ts _ _ _ _ hgj).1
        simp only [decide_eq_true_eq]
        omega
      have h2 : (row_gcps P ts (k : Int) values (flag_after P ts values k)).filter
          (fun g => g.y = (k : Int))
          = row_gcps P ts (k : Int) values (flag_after P ts values k) := by
        rw [List.filter_eq_self]
        intro g hg
        simpa using (row_gcps_mem P ts _ _ _ _ hg).1
      rw [h1, h2, List.nil_append]
    · have h2 : (row_gcps P ts (n : Int) values (flag_after P ts values n)).filter
          (fun g => g.y = (k : Int)) = [] := by
        rw [List.filter_eq_nil_iff]
        intro g hg
        have := (row_gcps_mem P ts _ _ _ _ hg).1
        simp only [decide_eq_true_eq]
        omega
      rw [ih (by omega), h2, List.append_nil]

/-- C18: for positive spacings, with stride arithmetic, image height and number
of timestamps within the range of `int`, the call returns, and on a row
`0 ≤ y < img_size_y` with `y % gcp_spacing_y ≠ 0` and
`y + 1 ≠ timestamps.size()` the queried pixels are
those of a prefix of the column sample position list; no column of the prefix
before its last one is mappable, and the prefix is empty (row not carried), or
the whole list, or ends at a mappable column, the first one of the row.  The
ground control points of the row are those of the prefix, hence at most one. -/
theorem unselected_row_at_most_one (P : SatelliteProjection R) (timestamps_size : Nat)
    (hx : 0 < P.gcp_spacing_x) (hy : 0 < P.gcp_spacing_y)
    (hr : strides_in_int_range P) (hh : P.img_size_y ≤ int_max)
    (hts : (timestamps_size : Int) ≤ int_max)
    (y : Int) (h0 : 0 ≤ y) (h1 : y < P.img_size_y)
    (hns : ¬ (y % P.gcp_spacing_y = 0 ∨ y + 1 = (timestamps_size : Int))) :
    ∃ (values : List Int) (queries : List (Int × Int)) (gcps : List (GCP R)) (n : Nat),
      column_values P = some values ∧
      locate_queries P timestamps_size = .ok queries ∧
      compute_gcps P timestamps_size = .ok gcps ∧
      n ≤ values.length ∧
      queries.filter (fun q => q.2 = y) = (values.take n).map (fun x => (x, y)) ∧
      (∀ x ∈ values.take (n - 1), P.get_position x y = none) ∧
      (n = 0 ∨ n = values.length ∨
        ∃ x, (values.take n).getLast? = some x ∧ P.get_position x y ≠ none) ∧
      gcps.filter (fun g => g.y = y) = (values.take n).filterMap
        (fun x => (P.get_position x y).map
          (fun position => (⟨x, y, position.lon, position.lat⟩ : GCP R))) ∧
      (gcps.filter (fun g => g.y = y)).length ≤ 1 := by
  obtain ⟨k, rfl⟩ := Int.eq_ofNat_of_zero_le h0
  have hk : k < P.img_size_y.toNat := by omega
  have hv := column_values_eq P hx hr
  have hsel : row_selected P timestamps_size (k : Int) = false :=
    row_unselected P timestamps_size (k : Int) hy h0 (by omega) hts hns
  have hq := queries_after_filter_row P timestamps_size
    (stride_values P.img_size_x P.gcp_spacing_x) k _ hk
  have hg := gcps_after_filter_row P timestamps_size
    (stride_values P.img_size_x P.gcp_spacing_x) k _ hk
  cases hf : flag_after P timestamps_size (stride_values P.img_size_x P.gcp_spacing_x) k with
  | false =>
    have hs := row_skipped P timestamps_size (k : Int) hsel
      (stride_values P.img_size_x P.gcp_spacing_x)
    rw [hf, hs.1] at hq
    rw [hf, hs.2.1] at hg
    refine ⟨_, _, _, 0, hv, locate_queries_eq P timestamps_size hv hy,
      compute_gcps_eq P timestamps_size hv hy, Nat.zero_le _, ?_, ?_, Or.inl rfl, ?_, ?_⟩
    · rw [hq]; rfl
    · intro x hx'; simp at hx'
    · rw [hg]; rfl
    · rw [hg]; simp
  | true =>
    obtain ⟨n, hn, hrq, hrg, hpre, hlast, hlen⟩ := carried_row_prefix P timestamps_size
      (k : Int) hsel (stride_values P.img_size_x P.gcp_spacing_x)
    rw [hf] at hq hg
    refine ⟨_, _, _, n, hv, locate_queries_eq P timestamps_size hv hy,
      compute_gcps_eq P timestamps_size hv hy, hn, ?_, hpre, ?_, ?_, ?_⟩
    · rw [hq, hrq]
    · by_cases e : n = (stride_values P.img_size_x P.gcp_spacing_x).length
      · exact Or.inr (Or.inl e)
      · exact Or.inr (Or.inr (hlast (by omega)))
    · rw [hg, hrg]; rfl
    · rw [hg]; exact hlen

/-- Witness of `unselected_row_at_most_one`: row 1 of `carry_through` with 3
timestamps. -/
theorem unselected_row_at_most_one_witness :
    (0 < carry_through.gcp_spacing_x ∧ 0 < carry_through.gcp_spacing_y ∧
      strides_in_int_range carry_through ∧ carry_through.img_size_y ≤ int_max ∧
      ((3 : Nat) : Int) ≤ int_max ∧
      (0 : Int) ≤ 1 ∧ (1 : Int) < carry_through.img_size_y ∧
      ¬ ((1 : Int) % carry_through.gcp_spacing_y = 0 ∨ (1 : Int) + 1 = ((3 : Nat) : Int))) ∧
    ∃ (values : List Int) (queries : List (Int × Int)) (gcps : List (GCP Int)) (n : Nat),
      column_values carry_through = some values ∧
      locate_queries carry_through 3 = .ok queries ∧
      compute_gcps carry_through 3 = .ok gcps ∧
      n ≤ values.length ∧
      queries.filter (fun q => q.2 = 1) = (values.take n).map (fun x => (x, (1 : Int))) ∧
      (∀ x ∈ values.take (n - 1), carry_through.get_position x 1 = none) ∧
      (n = 0 ∨ n = values.length ∨
        ∃ x, (values.take n).getLast? = some x ∧ carry_through.get_position x 1 ≠ none) ∧
      gcps.filter (fun g => g.y = 1) = (values.take n).filterMap
        (fun x => (carry_through.get_position x 1).map
          (fun position => (⟨x, 1, position.lon, position.lat⟩ : GCP Int))) ∧
      (gcps.filter (fun g => g.y = 1)).length ≤ 1 :=
  ⟨by decide, unselected_row_at_most_one carry_through 3 (by decide) (by decide)
    (by decide) (by decide) (by decide) 1 (by decide) (by decide) (by decide)⟩

end gcp_compute
end satdump
